import Mathlib

/-!
Verification development for the quest-mirrorer repository.

The Python sources (parsing.py, sitegen.py, feeds.py, main.py) are shallowly
embedded below.  Strings are modelled through their code-point lists
(`String.data`), Python list/dict operations through `List` and association
lists, the output directory through an association list keyed by file names,
and the network through explicit oracle functions.  Machine-level aspects that
the claims do not touch (regex Unicode classes beyond ASCII, float size limits
expressed in bytes, filesystem races) are noted at the definition they concern.
-/

/-! ### Python string primitives (parsing.py / sitegen.py operate on `str`) -/

/-- Characters stripped by Python `str.strip()` (ASCII whitespace; Python also
strips further Unicode space characters, which no claim exercises). -/
def isPySpace (c : Char) : Bool :=
  c = ' ' || c = '\t' || c = '\n' || c = '\r' || c = '\x0b' || c = '\x0c'

/-- Embedding of Python `str.strip()` on a code-point list. -/
def pyStripList (cs : List Char) : List Char :=
  ((cs.dropWhile isPySpace).reverse.dropWhile isPySpace).reverse

/-- Python `s.strip()`. -/
def pyStrip (s : String) : String :=
  String.mk (pyStripList s.data)

/-- Python `s.lower()` (ASCII case folding; the source only tests ASCII markers). -/
def pyLower (s : String) : String :=
  String.mk (s.data.map Char.toLower)

/-- Python `s.startswith(p)`. -/
def pyStartsWith (s p : String) : Bool :=
  p.data.isPrefixOf s.data

/-- Python `s.endswith(p)`. -/
def pyEndsWith (s p : String) : Bool :=
  p.data.isSuffixOf s.data

/-- Python `s[n:]` (slicing by code points). -/
def pyDrop (s : String) (n : Nat) : String :=
  String.mk (s.data.drop n)

/-- Python `str.split(sep)` for a one-character separator (keeps empty pieces). -/
def splitChar (sep : Char) : List Char → List (List Char)
  | [] => [[]]
  | c :: rest =>
    if c = sep then [] :: splitChar sep rest
    else
      match splitChar sep rest with
      | [] => [[c]]
      | h :: t => (c :: h) :: t

/-- Python `s.replace("\r\n", "\n")` (left-to-right, non-overlapping). -/
def replaceCRLF : List Char → List Char
  | [] => []
  | '\r' :: '\n' :: rest => '\n' :: replaceCRLF rest
  | c :: rest => c :: replaceCRLF rest

/-- Python `" ".join(parts)`. -/
def joinSpace : List String → String
  | [] => ""
  | [s] => s
  | s :: rest => s ++ " " ++ joinSpace rest

/-- Python `s.find(pat)` combined with slicing: splits a string at the first
occurrence of `pat`, returning the part before it and the part after it. -/
def splitFirstAux (pat : List Char) : List Char → Option (List Char × List Char)
  | [] => none
  | c :: rest =>
    if pat.isPrefixOf (c :: rest) then some ([], (c :: rest).drop pat.length)
    else
      match splitFirstAux pat rest with
      | some (a, b) => some (c :: a, b)
      | none => none

/-! ### urllib.parse.urlsplit / urlunsplit (as used by `_canonical_media_key`) -/

/-- Result of `urllib.parse.urlsplit`. -/
structure SplitUrl where
  scheme : String
  netloc : String
  path : String
  query : String
  fragment : String
deriving DecidableEq

/-- Characters CPython allows inside a URL scheme. -/
def isSchemeChar (c : Char) : Bool :=
  c.isAlphanum || c = '+' || c = '-' || c = '.'

/-- Characters ending the netloc component in CPython `urlsplit`. -/
def isNetlocEnd (c : Char) : Bool :=
  c = '/' || c = '?' || c = '#'

/-- Embedding of CPython `urllib.parse.urlsplit` for the URL shapes the mirror
handles: optional `scheme:`, optional `//netloc`, then path, `?query`,
`#fragment`. -/
def urlsplit (s : String) : SplitUrl :=
  let cs := s.data
  let schemeSplit :=
    match splitFirstAux [':'] cs with
    | some (before, after) =>
      if before ≠ [] && before.all isSchemeChar &&
          (match before.head? with | some c => c.isAlpha | none => false) then
        (String.mk (before.map Char.toLower), after)
      else ("", cs)
    | none => ("", cs)
  let scheme := schemeSplit.1
  let rest1 := schemeSplit.2
  let netlocSplit :=
    match rest1 with
    | '/' :: '/' :: tail =>
      (String.mk (tail.takeWhile (fun c => !isNetlocEnd c)),
       tail.dropWhile (fun c => !isNetlocEnd c))
    | _ => ("", rest1)
  let netloc := netlocSplit.1
  let rest2 := netlocSplit.2
  let fragSplit :=
    match splitFirstAux ['#'] rest2 with
    | some (before, after) => (before, String.mk after)
    | none => (rest2, "")
  let rest3 := fragSplit.1
  let fragment := fragSplit.2
  let querySplit :=
    match splitFirstAux ['?'] rest3 with
    | some (before, after) => (String.mk before, String.mk after)
    | none => (String.mk rest3, "")
  ⟨scheme, netloc, querySplit.1, querySplit.2, fragment⟩

/-- Embedding of `urllib.parse.urlunsplit`. -/
def urlunsplit (u : SplitUrl) : String :=
  let url1 :=
    if u.netloc ≠ "" || pyStartsWith u.path "//" then
      "//" ++ u.netloc ++
        (if u.path ≠ "" && !pyStartsWith u.path "/" then "/" ++ u.path else u.path)
    else u.path
  let url2 := if u.scheme ≠ "" then u.scheme ++ ":" ++ url1 else url1
  let url3 := if u.query ≠ "" then url2 ++ "?" ++ u.query else url2
  if u.fragment ≠ "" then url3 ++ "#" ++ u.fragment else url3

/-- sitegen.py `_canonical_media_key`: strip query and fragment from URLs on
the Discord CDN hosts, keep every other URL verbatim. -/
def canonical_media_key (url : String) : String :=
  let s := urlsplit url
  let host := pyLower s.netloc
  if pyEndsWith host "discordapp.net" || pyEndsWith host "discordapp.com" ||
      pyEndsWith host "discord.com" then
    urlunsplit ⟨s.scheme, s.netloc, s.path, "", ""⟩
  else url

/-! ### parsing.py: message model and attachment classification -/

/-- Extensions parsing.py classifies as images. -/
def image_exts : List String :=
  [".png", ".jpg", ".jpeg", ".gif", ".webp", ".bmp", ".tiff"]

/-- Extensions parsing.py classifies as videos. -/
def video_exts : List String :=
  [".mp4", ".webm", ".mov", ".m4v", ".ogv", ".ogg", ".avi", ".mkv"]

/-- A Discord attachment as the source reads it (`att.url`, `att.content_type`,
`att.filename`; `none` models Python `None`). -/
structure Att where
  url : String
  content_type : Option String
  filename : Option String
deriving DecidableEq

/-- A Discord embed (`embed.image.url`, `embed.thumbnail.url`, `embed.video.url`). -/
structure Emb where
  image_url : Option String
  thumbnail_url : Option String
  video_url : Option String
deriving DecidableEq

/-- A Discord message as the segmenter reads it.  `author` is the author id,
`created_at` an abstract timestamp. -/
structure Msg where
  author : Nat
  content : String
  attachments : List Att
  embeds : List Emb
  created_at : Nat
deriving DecidableEq

/-- parsing.py `is_image_attachment`. -/
def is_image_attachment (a : Att) : Bool :=
  let ct := pyLower (a.content_type.getD "")
  if pyStartsWith ct "image/" then true
  else
    let name := pyLower (a.filename.getD "")
    image_exts.any (fun ext => pyEndsWith name ext)

/-- parsing.py `is_video_attachment`. -/
def is_video_attachment (a : Att) : Bool :=
  let ct := pyLower (a.content_type.getD "")
  if pyStartsWith ct "video/" then true
  else
    let name := pyLower (a.filename.getD "")
    video_exts.any (fun ext => pyEndsWith name ext)

/-! ### parsing.py: command extraction -/

/-- One iteration of the command-scanning loop in `parse_pages_from_messages`
(lines 217-222): a stripped line starting `>` with text after it, or starting
`==>` case-insensitively with text after it, overrides the candidate command. -/
def extractCmdLine (cur : Option String) (line : String) : Option String :=
  let s := pyStrip line
  if pyStartsWith s ">" ∧ 1 < s.data.length then
    some (pyStrip (pyDrop s 1))
  else if pyStartsWith (pyLower s) "==>" ∧ 3 < s.data.length then
    some (pyStrip (pyDrop s 3))
  else cur

/-- Command extraction over all lines of a message body
(`t.replace("\r\n", "\n").split("\n")`, guarded by `if t:`). -/
def extractCmd (t : String) : Option String :=
  if t = "" then none
  else ((splitChar '\n' (replaceCRLF t.data)).map String.mk).foldl extractCmdLine none

/-! ### parsing.py: the end-of-update bracket regex -/

/-- Python `\w` on the ASCII range (the bracket annotations in the source data
are ASCII). -/
def isWordChar (c : Char) : Bool :=
  c.isAlphanum || c = '_'

/-- Whether `pat` (lowercase) occurs as a whole word, case-insensitively, at the
start of `s`, i.e. matching `\bpat\b` when the preceding character is `pre`. -/
def wordHereCI (pat : List Char) (pre : Char) (s : List Char) : Bool :=
  !isWordChar pre && pat.isPrefixOf (s.map Char.toLower) &&
    (match (s.drop pat.length).head? with
     | some d => !isWordChar d
     | none => true)

/-- Scan for a word-bounded, case-insensitive occurrence of `pat`; `pre` is the
character just before the scan position. -/
def scanWordCI (pat : List Char) : Char → List Char → Bool
  | _, [] => false
  | pre, c :: rest => wordHereCI pat pre (c :: rest) || scanWordCI pat c rest

/-- Match of `\bupdate(?:s)?\b` starting exactly here (preceding char `pre`). -/
def wordUpdateHere (pre : Char) (s : List Char) : Bool :=
  !isWordChar pre &&
    ([ 'u', 'p', 'd', 'a', 't', 'e' ].isPrefixOf (s.map Char.toLower)) &&
    (match (s.drop 6).head? with
     | none => true
     | some d =>
       if d.toLower = 's' then
         match (s.drop 7).head? with
         | none => true
         | some d2 => !isWordChar d2
       else !isWordChar d)

/-- Scan for `\bupdate(?:s)?\b`. -/
def scanWordUpdate : Char → List Char → Bool
  | _, [] => false
  | pre, c :: rest => wordUpdateHere pre (c :: rest) || scanWordUpdate c rest

/-- parsing.py `_END_UPDATE_BRACKET_RE.match(b)`:
`^\[\s*(?=[^\]]*\bend\b)(?=[^\]]*\bupdate(?:s)?\b)[^\]]*\]\s*$` (IGNORECASE).
It matches exactly when the block starts with `[`, its first `]` is followed
only by whitespace, and the bracketed zone contains the words `end` and
`update`/`updates`. -/
def endUpdateMatch (cs : List Char) : Bool :=
  match cs with
  | '[' :: rest =>
    match splitFirstAux [']'] rest with
    | none => false
    | some (inner, after) =>
      after.all isPySpace &&
        scanWordCI ['e', 'n', 'd'] '[' (inner ++ [']']) &&
        scanWordUpdate '[' (inner ++ [']'])
  | _ => false

/-! ### parsing.py: `normalize_paragraphs` -/

/-- One iteration of the block-building loop of `normalize_paragraphs`:
blank lines and a lone `~` flush the buffer, lines starting `>` are dropped,
everything else is buffered stripped. -/
def npStep (acc : List String × List String) (line : String) :
    List String × List String :=
  let s := pyStrip line
  if s = "~" ∨ s = "" then
    if acc.2 ≠ [] then (acc.1 ++ [pyStrip (joinSpace acc.2)], []) else acc
  else if pyStartsWith s ">" then acc
  else (acc.1, acc.2 ++ [s])

/-- parsing.py `normalize_paragraphs`. -/
def normalize_paragraphs (text : String) : List String :=
  if text = "" then []
  else
    let lines :=
      (splitChar '\n'
        ((replaceCRLF text.data).map (fun c => if c = '\r' then '\n' else c))).map
        String.mk
    let acc := lines.foldl npStep ([], [])
    let blocks := if acc.2 ≠ [] then acc.1 ++ [pyStrip (joinSpace acc.2)] else acc.1
    blocks.filter (fun b => b ≠ "" ∧ endUpdateMatch b.data = false)

/-! ### parsing.py: the page segmenter -/

/-- A page record as built by `parse_pages_from_messages`. -/
structure RawPage where
  images : List String
  videos : List String
  paragraphs : List String
  command_text : Option String
  last_ts : Option Nat
deriving DecidableEq

/-- The empty accumulator page. -/
def freshPage : RawPage :=
  ⟨[], [], [], none, none⟩

/-- `current_has_content` in the source: any of images/videos/paragraphs present. -/
def hasContent (p : RawPage) : Bool :=
  !p.images.isEmpty || !p.videos.isEmpty || !p.paragraphs.isEmpty

/-- Scanner state: completed pages plus the current accumulator. -/
structure SegState where
  pages : List RawPage
  current : RawPage
deriving DecidableEq

/-- Environment-derived configuration of the segmenter.  `shill` abstracts
`_filter_shill_words` with the SHILLWORDS replacements loaded from the
environment (identity when none are configured); `allowed` is the USER_IDS
allow-list (empty means no filtering). -/
structure Config where
  shill : String → String
  allowed : List Nat

/-- Step 4 of the per-message loop: command application / page-break decision. -/
def applyCommand (st : SegState) (cmd : Option String) (ts : Nat) : SegState :=
  match cmd with
  | none => st
  | some c =>
    if hasContent st.current then
      ⟨st.pages ++ [{ st.current with command_text := some c, last_ts := some ts }],
        freshPage⟩
    else if st.current.command_text.isSome then
      ⟨st.pages ++ [st.current],
        { freshPage with command_text := some c, last_ts := some ts }⟩
    else
      ⟨st.pages, { st.current with command_text := some c, last_ts := some ts }⟩

/-- Step 5: paragraph extraction (`if t:` then `normalize_paragraphs`, appended
when non-empty). -/
def applyParas (st : SegState) (t : String) (ts : Nat) : SegState :=
  if t = "" then st
  else
    let paras := normalize_paragraphs t
    if paras.isEmpty then st
    else
      ⟨st.pages,
        { st.current with
            paragraphs := st.current.paragraphs ++ paras
            last_ts := some ts }⟩

/-- Step 6a: one attachment (image, else video, else ignored). -/
def applyAtt (st : SegState) (ts : Nat) (a : Att) : SegState :=
  if is_image_attachment a then
    ⟨st.pages,
      { st.current with images := st.current.images ++ [a.url], last_ts := some ts }⟩
  else if is_video_attachment a then
    ⟨st.pages,
      { st.current with videos := st.current.videos ++ [a.url], last_ts := some ts }⟩
  else st

/-- Step 6b: one embed (image url, thumbnail url, then video url). -/
def applyEmb (st : SegState) (ts : Nat) (e : Emb) : SegState :=
  let st1 :=
    match e.image_url with
    | some u =>
      ⟨st.pages,
        { st.current with images := st.current.images ++ [u], last_ts := some ts }⟩
    | none => st
  let st2 :=
    match e.thumbnail_url with
    | some u =>
      ⟨st1.pages,
        { st1.current with images := st1.current.images ++ [u], last_ts := some ts }⟩
    | none => st1
  match e.video_url with
  | some u =>
    ⟨st2.pages,
      { st2.current with videos := st2.current.videos ++ [u], last_ts := some ts }⟩
  | none => st2

/-- The redacted, stripped message body
(`_filter_shill_words(raw_text, ...).strip() if raw_text else ""`). -/
def messageText (cfg : Config) (m : Msg) : String :=
  if m.content = "" then "" else pyStrip (cfg.shill m.content)

/-- The whole per-message body of `parse_pages_from_messages`. -/
def processMessage (cfg : Config) (st : SegState) (m : Msg) : SegState :=
  if !cfg.allowed.isEmpty && !(decide (m.author ∈ cfg.allowed)) then st
  else
    let t := messageText cfg m
    let st1 := applyCommand st (extractCmd t) m.created_at
    let st2 := applyParas st1 t m.created_at
    let st3 := m.attachments.foldl (fun s a => applyAtt s m.created_at a) st2
    m.embeds.foldl (fun s e => applyEmb s m.created_at e) st3

/-- The final flush: a trailing accumulator with any content or command becomes
the last page. -/
def pageNonEmpty (p : RawPage) : Bool :=
  hasContent p || p.command_text.isSome

/-- parsing.py `parse_pages_from_messages`. -/
def parse_pages_from_messages (cfg : Config) (messages : List Msg) : List RawPage :=
  let st := messages.foldl (processMessage cfg) ⟨[], freshPage⟩
  if pageNonEmpty st.current then st.pages ++ [st.current] else st.pages

/-- The image URLs a message contributes through attachments, in order. -/
def attImageUrls (atts : List Att) : List String :=
  (atts.filter (fun a => is_image_attachment a)).map Att.url

/-- The image URLs a message contributes through embeds (image url then
thumbnail url per embed), in order. -/
def embImageUrls (embeds : List Emb) : List String :=
  (embeds.map (fun e => e.image_url.toList ++ e.thumbnail_url.toList)).flatten

/-- Property of a paragraph block produced by `normalize_paragraphs`: it is the
space-join of a non-empty list of stripped lines, none empty, none a lone `~`,
and none starting with the `>` marker. -/
def goodPara (b : String) : Prop :=
  ∃ ls : List String, ls ≠ [] ∧
    (∀ s ∈ ls,
      pyStartsWith s ">" = false ∧ s ≠ "" ∧ s ≠ "~" ∧ pyStrip s = s) ∧
    b = pyStrip (joinSpace ls)

/-! ### parsing.py: `download_image` -/

/-- The streaming loop of `download_image`: `chunks` are the sizes of the
chunks `iter_content` yields (empty chunks are skipped), `written` the running
byte count, `size` the bytes in the destination file so far.  Returns the
function's result and the size of the file left at the destination path
(`none`: no file, it was deleted when the limit was exceeded). -/
def streamChunks (limitBytes : Nat) : List Nat → Nat → Nat → Bool × Option Nat
  | [], _, size => (true, some size)
  | c :: rest, written, size =>
    if c = 0 then streamChunks limitBytes rest written size
    else
      let w := written + c
      if limitBytes < w then (false, none)
      else streamChunks limitBytes rest w (size + c)

/-- parsing.py `download_image`.  `schemeOk` is the `urlparse(url).scheme in
{"http", "https"}` test, `fetchOk` models `requests.get`/`raise_for_status`
succeeding (failures there happen before the file is opened), `limitBytes` is
`int(max_mb * 1024 * 1024)`.  The second component is the file left at the
destination path. -/
def download_image (schemeOk fetchOk : Bool) (chunks : List Nat)
    (limitBytes : Nat) : Bool × Option Nat :=
  if !schemeOk then (false, none)
  else if !fetchOk then (false, none)
  else streamChunks limitBytes chunks 0 0

/-! ### sitegen.py: the output directory and `write_if_changed` -/

/-- Names of files in the output directory.  `page n` is the numbered page file
`f"{n}.html"` (canonical decimal digits), `index` is `index.html`; `media s`
stands for any other file (downloaded media, `atom.xml`, non-canonically
numbered leftovers), which none of the modelled operations name. -/
inductive FName
  | page (n : Nat)
  | index
  | media (s : String)
deriving DecidableEq

/-- The output directory: file name to current content. -/
abbrev Disk := List (FName × String)

/-- Read a file (`Path.read_text`), `none` when absent. -/
def readFile (d : Disk) (f : FName) : Option String :=
  (d.find? (fun e => e.1 == f)).map (fun e => e.2)

/-- sitegen.py `atomic_write`: replace the file's content.  The temp-file /
rename dance is atomicity against concurrent readers, invisible to this
sequential model. -/
def writeFile (d : Disk) (f : FName) (c : String) : Disk :=
  (f, c) :: d.filter (fun e => !(e.1 == f))

/-- sitegen.py `write_if_changed` (lines 85-94): returns the new directory and
whether a write happened. -/
def write_if_changed (d : Disk) (f : FName) (c : String) : Disk × Bool :=
  match readFile d f with
  | none => (writeFile d f c, true)
  | some old => if old = c then (d, false) else (writeFile d f c, true)

/-! ### sitegen.py: `_ensure_next_link` and `_linkify_previous_page` -/

/-- The literal `<div class="commands">`. -/
def commandsOpenTag : List Char :=
  "<div class=\"commands\">".data

/-- The literal `</div>`. -/
def divCloseTag : List Char :=
  "</div>".data

/-- The regex substitution of `_ensure_next_link`:
`(<div class="commands">)([\s\S]*?)(</div>)`, first match, with the inner part
replaced by a plain Next link.  A leftmost match always starts at the first
occurrence of the open tag and its non-greedy middle ends at the first
`</div>` after it. -/
def commandsBlockRewrite (nextNum : Nat) (data : String) : Option String :=
  match splitFirstAux commandsOpenTag data.data with
  | none => none
  | some (pre, post) =>
    match splitFirstAux divCloseTag post with
    | none => none
    | some (_, rest) =>
      some (String.mk (pre ++ commandsOpenTag ++
        ("&gt; <a href=\"" ++ toString nextNum ++ ".html\">Next</a>").data ++
        divCloseTag ++ rest))

/-- sitegen.py `_ensure_next_link` (lines 340-359). -/
def ensure_next_link (d : Disk) (pageNum nextNum : Nat) : Disk :=
  match readFile d (FName.page pageNum) with
  | none => d
  | some data =>
    match commandsBlockRewrite nextNum data with
    | none => d
    | some nd => if nd = data then d else writeFile d (FName.page pageNum) nd

/-- The literal `<a href="`. -/
def aHrefTag : List Char :=
  "<a href=\"".data

/-- The literal `&gt;`. -/
def gtEntity : List Char :=
  "&gt;".data

/-- Attempt of `_linkify_previous_page`'s first regex continuation at this
position inside the text after the commands tag: `&gt;\s*<a href="`, then the
old href (`[^"]*`), then `">`.  On success returns the rewritten remainder
with `nextHref` substituted for the old href. -/
def linkifyTryAt (nextHref : List Char) (s : List Char) : Option (List Char) :=
  if gtEntity.isPrefixOf s then
    let after := s.drop 4
    let ws := after.takeWhile isPySpace
    let t := after.dropWhile isPySpace
    if aHrefTag.isPrefixOf t then
      let t2 := t.drop 9
      let href := t2.takeWhile (fun ch => !(ch == '"'))
      match t2.drop href.length with
      | '"' :: '>' :: t4 =>
        some (gtEntity ++ ws ++ aHrefTag ++ nextHref ++ '"' :: '>' :: t4)
      | _ => none
    else none
  else none

/-- Scan (the regex's non-greedy `[\s\S]*?`) for the first position where
`linkifyTryAt` succeeds, keeping the skipped characters. -/
def linkifyScan (nextHref : List Char) : List Char → Option (List Char)
  | [] => none
  | c :: rest =>
    match linkifyTryAt nextHref (c :: rest) with
    | some r => some r
    | none =>
      match linkifyScan nextHref rest with
      | some r => some (c :: r)
      | none => none

/-- The literal `<span class="placeholder"`. -/
def placeholderTag : List Char :=
  "<span class=\"placeholder\"".data

/-- The literal `>&gt;</span>`. -/
def spanCloseLit : List Char :=
  ">&gt;</span>".data

/-- Attempt of `_linkify_previous_page`'s placeholder regex at this position:
`(<div class="commands">\s*)(<span class="placeholder"[^>]*>&gt;</span>)`,
with the span replaced by `&gt; <a href="{next}">Next</a>`. -/
def placeholderTryAt (nextHref : List Char) (s : List Char) : Option (List Char) :=
  if commandsOpenTag.isPrefixOf s then
    let after := s.drop commandsOpenTag.length
    let ws := after.takeWhile isPySpace
    let t := after.dropWhile isPySpace
    if placeholderTag.isPrefixOf t then
      let t2 := t.drop placeholderTag.length
      let attrs := t2.takeWhile (fun ch => !(ch == '>'))
      let t3 := t2.drop attrs.length
      if spanCloseLit.isPrefixOf t3 then
        some (commandsOpenTag ++ ws ++ ("&gt; <a href=\"").data ++ nextHref ++
          ("\">Next</a>").data ++ t3.drop spanCloseLit.length)
      else none
    else none
  else none

/-- Scan for the first position where the placeholder pattern matches. -/
def placeholderScan (nextHref : List Char) : List Char → Option (List Char)
  | [] => none
  | c :: rest =>
    match placeholderTryAt nextHref (c :: rest) with
    | some r => some r
    | none =>
      match placeholderScan nextHref rest with
      | some r => some (c :: r)
      | none => none

/-- sitegen.py `_linkify_previous_page` (lines 297-337).  Note the source
writes the file whenever the first regex matched, even when the replacement
left the text unchanged; `writeFile` with equal content models that. -/
def linkify_previous_page (d : Disk) (lastOld : Nat) : Disk :=
  if lastOld = 0 then d
  else
    match readFile d (FName.page lastOld) with
    | none => d
    | some data =>
      let nextHref := (toString (lastOld + 1) ++ ".html").data
      match splitFirstAux commandsOpenTag data.data with
      | none => d
      | some (pre, post) =>
        match linkifyScan nextHref post with
        | some newPost =>
          writeFile d (FName.page lastOld) (String.mk (pre ++ commandsOpenTag ++ newPost))
        | none =>
          match placeholderScan nextHref data.data with
          | some newData => writeFile d (FName.page lastOld) (String.mk newData)
          | none => d

/-! ### sitegen.py: the page-writing loop of `regenerate_site_from_channel` -/

/-- The numbered-page rendering loop (lines 631-650): write each rendered page
with `write_if_changed`, counting written and unchanged pages.  `htmls` are
the rendered page bodies for pages `num, num+1, ...` (the template renderer is
external to the core, so its outputs are inputs here). -/
def publishPagesLoop : Disk → Nat → List String → Disk × Nat × Nat
  | d, _, [] => (d, 0, 0)
  | d, num, h :: rest =>
    let wr := write_if_changed d (FName.page num) h
    let res := publishPagesLoop wr.1 (num + 1) rest
    (res.1, (if wr.2 then 1 else 0) + res.2.1, (if wr.2 then 0 else 1) + res.2.2)

/-- Result of one publish pass: final directory, `pages_written`,
`pages_unchanged`. -/
structure PublishResult where
  disk : Disk
  written : Nat
  unchanged : Nat

/-- The publish slice of sitegen.py `regenerate_site_from_channel` (lines
630-658): guarded on a non-empty page set, write every numbered page with
`write_if_changed`, then — when new-channel pages exist — run the
boundary-stitching (`_linkify_previous_page` on page `new_start - 1` and
`_ensure_next_link` on page `new_start`), then copy page 1 to `index.html`.
The `atom.xml` write never touches the page counters and is omitted. -/
def publishOnce (htmls : List String) (hasNewPages : Bool) (newStart : Nat)
    (d : Disk) : PublishResult :=
  if htmls.isEmpty then ⟨d, 0, 0⟩
  else
    let res := publishPagesLoop d 1 htmls
    let d2 :=
      if hasNewPages then
        ensure_next_link (linkify_previous_page res.1 (newStart - 1)) newStart
          (if newStart + 1 ≤ htmls.length then newStart + 1 else newStart)
      else res.1
    let d3 :=
      match readFile d2 (FName.page 1) with
      | some first => (write_if_changed d2 FName.index first).1
      | none => d2
    ⟨d3, res.2.1, res.2.2⟩

/-! ### sitegen.py: the manual command-shift pass -/

/-- Python truthiness of a command value (`None` and `""` are falsy). -/
def truthyS : Option String → Bool
  | some s => s ≠ ""
  | none => false

/-- One iteration of the shift loop: page `n` pulls the command of page `n+1`
when that is truthy. -/
def shiftStep (m : Nat → Option String) (n : Nat) : Nat → Option String :=
  let nxt := m (n + 1)
  if truthyS nxt then fun k => if k = n then nxt else m k else m

/-- The manual correction pass of `regenerate_site_from_channel` (lines
573-578): `for n in range(start, total): ...` over the command texts of the
processed pages, viewed as a map from page number to command (a missing page
and a `None` command are both `none`; the loop treats both as falsy). -/
def shiftCommands (start total : Nat) (m : Nat → Option String) :
    Nat → Option String :=
  (List.range' start (total - start)).foldl shiftStep m

/-! ### sitegen.py: the cached media resolver -/

/-- Python dict lookup on the persisted cache mapping. -/
def lookupA (m : List (String × String)) (k : String) : Option String :=
  (m.find? (fun e => e.1 == k)).map (fun e => e.2)

/-- Python dict assignment `cache[key] = value`. -/
def insertA (m : List (String × String)) (k v : String) : List (String × String) :=
  (k, v) :: m.filter (fun e => !(e.1 == k))

/-- State threaded through the resolver loop of
`rewrite_images_to_local_cached` / `rewrite_videos_to_local_cached`:
the in-memory cache dict, the set of media files present in the output
directory, the `local_names`, `seen_rels`, and the two counters. -/
structure ResolveAcc where
  cache : List (String × String)
  disk : List String
  locals : List String
  seen : List String
  reused : Nat
  downloaded : Nat

/-- Record a cache hit on file `r`. -/
def reuseHit (acc : ResolveAcc) (r : String) : ResolveAcc :=
  { acc with
      locals := acc.locals ++ [r]
      seen := r :: acc.seen
      reused := acc.reused + 1 }

/-- Record a successful download saved as `saved` under `key`. -/
def downloadHit (acc : ResolveAcc) (key saved : String) : ResolveAcc :=
  { acc with
      cache := insertA acc.cache key saved
      disk := saved :: acc.disk
      locals := acc.locals ++ [saved]
      seen := saved :: acc.seen
      downloaded := acc.downloaded + 1 }

/-- One iteration of the resolver loop (sitegen.py lines 149-184).  `dl url
base` abstracts `download_image` followed by the `glob(base + ".*")` lookup:
`some saved` is the name of the file the download left in the output
directory, `none` a failed download (which leaves no tracked file).  The
source distinguishes a failed download from a successful one whose glob finds
nothing, but both fall back identically to the previously cached file. -/
def resolveStep (dl : String → String → Option String) (base : Nat → String)
    (acc : ResolveAcc) (idx : Nat) (url : String) : ResolveAcc :=
  let key := canonical_media_key url
  match lookupA acc.cache key with
  | some r =>
    if r ≠ "" ∧ r ∈ acc.disk ∧ r ∉ acc.seen then reuseHit acc r
    else
      match dl url (base idx) with
      | some saved => downloadHit acc key saved
      | none =>
        if r ≠ "" ∧ r ∈ acc.disk ∧ r ∉ acc.seen then reuseHit acc r else acc
  | none =>
    match dl url (base idx) with
    | some saved => downloadHit acc key saved
    | none => acc

/-- The resolver loop over `enumerate(urls, start=1)`. -/
def resolveLoop (dl : String → String → Option String) (base : Nat → String) :
    List String → Nat → ResolveAcc → ResolveAcc
  | [], _, acc => acc
  | url :: rest, idx, acc =>
    resolveLoop dl base rest (idx + 1) (resolveStep dl base acc idx url)

/-- Persistent media-cache state: the on-disk JSON mapping and the media files
present in the output directory. -/
structure MediaFS where
  cache : List (String × String)
  disk : List String

/-- Result of one resolver call: `local_names`, `reused`, `downloaded`, and
the persisted state (`_save_cache` runs once after the loop). -/
structure ResolveResult where
  locals : List String
  reused : Nat
  downloaded : Nat
  fs : MediaFS

/-- The deterministic image file stem `f"page{page_number}_{idx}"`. -/
def imageBase (pageNumber idx : Nat) : String :=
  "page" ++ toString pageNumber ++ "_" ++ toString idx

/-- The deterministic video file stem `f"page{page_number}_v{idx}"`. -/
def videoBase (pageNumber idx : Nat) : String :=
  "page" ++ toString pageNumber ++ "_v" ++ toString idx

/-- sitegen.py `rewrite_images_to_local_cached` (lines 136-187). -/
def rewrite_images_to_local_cached (dl : String → String → Option String)
    (pageNumber : Nat) (urls : List String) (fs : MediaFS) : ResolveResult :=
  let acc := resolveLoop dl (imageBase pageNumber) urls 1
    ⟨fs.cache, fs.disk, [], [], 0, 0⟩
  ⟨acc.locals, acc.reused, acc.downloaded, ⟨acc.cache, acc.disk⟩⟩

/-- sitegen.py `rewrite_videos_to_local_cached` (lines 190-241); identical to
the image variant except for the file stem. -/
def rewrite_videos_to_local_cached (dl : String → String → Option String)
    (pageNumber : Nat) (urls : List String) (fs : MediaFS) : ResolveResult :=
  let acc := resolveLoop dl (videoBase pageNumber) urls 1
    ⟨fs.cache, fs.disk, [], [], 0, 0⟩
  ⟨acc.locals, acc.reused, acc.downloaded, ⟨acc.cache, acc.disk⟩⟩

/-! ### sitegen.py: `_load_cache` and loading a corrupt cache file -/

/-- Possible states of a cache mapping file on disk. -/
inductive CacheFileContent
  | absent
  | unreadable
  | invalidJson
  | jsonDict (m : List (String × String))
  | jsonNonDict
deriving DecidableEq

/-- sitegen.py `_load_cache` (lines 111-117): a missing file and any exception
from `read_text`/`json.loads` give `{}`; but a file whose content is valid
JSON of a non-object shape (array, string, number) is returned as-is.
`some m` is a dict result, `none` the non-dict value passed through. -/
def load_cache : CacheFileContent → Option (List (String × String))
  | CacheFileContent.absent => some []
  | CacheFileContent.unreadable => some []
  | CacheFileContent.invalidJson => some []
  | CacheFileContent.jsonDict m => some m
  | CacheFileContent.jsonNonDict => none

/-- `rewrite_images_to_local_cached` including the `_load_cache` call it starts
with.  When `_load_cache` returned a non-dict, the first `cache.get(key)` in
the loop raises `AttributeError` (modelled as `Except.error ()`); with no URLs
the loop body never runs and `_save_cache` serialises the non-dict back
unchanged (its value is not representable in `ResolveResult.fs.cache`, which
no claim reads in that case). -/
def rewrite_images_cached_from_file (dl : String → String → Option String)
    (pageNumber : Nat) (urls : List String) (file : CacheFileContent)
    (disk : List String) : Except Unit ResolveResult :=
  match load_cache file with
  | some m => Except.ok (rewrite_images_to_local_cached dl pageNumber urls ⟨m, disk⟩)
  | none =>
    match urls with
    | [] => Except.ok ⟨[], 0, 0, ⟨[], disk⟩⟩
    | _ :: _ => Except.error ()

/-! ### feeds.py: entry titles -/

/-- feeds.py `_title_for_page` (lines 14-18): the previous page's command, or
`""`.  The source indexes `pages[i - 2]` and raises `IndexError` out of
bounds; the model returns `""` there and the theorems restrict to in-bounds
indices. -/
def title_for_page_feed (i : Nat) (pages : List RawPage) : String :=
  if i = 1 then ""
  else
    match pages.get? (i - 2) with
    | some p => p.command_text.getD ""
    | none => ""

/-- feeds.py `render_atom` line 120: `title = _title_for_page(idx, pages) or
story_title`. -/
def feed_entry_title (i : Nat) (pages : List RawPage) (storyTitle : String) :
    String :=
  let t := title_for_page_feed i pages
  if t = "" then storyTitle else t

/-! ### main.py: the single-channel publish with pruning -/

/-- The page-writing loop of main.py `regenerate_site_from_channel` (lines
478-492): every page is written unconditionally with `atomic_write`. -/
def mainpyWritePages : Disk → Nat → List String → Disk
  | d, _, [] => d
  | d, num, h :: rest => mainpyWritePages (writeFile d (FName.page num) h) (num + 1) rest

/-- The pruning loop of main.py (lines 498-505): delete every `*.html` file
whose stem is numeric and whose name is not `f"{i}.html"` for `i` in
`1..total` (nor `index.html`).  `FName.page k` is exactly the canonically
numbered page files; `index` and `media` names never have a numeric stem. -/
def pruneStray (total : Nat) (d : Disk) : Disk :=
  d.filter (fun e =>
    match e.1 with
    | FName.page k => decide (1 ≤ k ∧ k ≤ total)
    | _ => true)

/-- main.py `regenerate_site_from_channel` (lines 469-508), publish part:
write all pages, copy page 1 to `index.html`, prune strays. -/
def mainpy_regenerate (htmls : List String) (d : Disk) : Disk :=
  let d1 := mainpyWritePages d 1 htmls
  let d2 :=
    if htmls.isEmpty then d1
    else
      match readFile d1 (FName.page 1) with
      | some first => writeFile d1 FName.index first
      | none => d1
  pruneStray htmls.length d2

/-! ### List and stripping lemmas -/

theorem headSomeMem {α : Type} {l : List α} {a : α} (h : l.head? = some a) :
    a ∈ l := by
  cases l with
  | nil => simp at h
  | cons b t => simp at h; simp [h]

theorem dropWhileHeadFalse {α : Type} (p : α → Bool) {l : List α} {a : α}
    (h : (l.dropWhile p).head? = some a) : p a = false := by
  induction l with
  | nil => simp at h
  | cons b t ih =>
    rw [List.dropWhile_cons] at h
    by_cases hb : p b = true
    · rw [if_pos hb] at h
      exact ih h
    · rw [if_neg hb] at h
      have hba : b = a := by simpa using h
      subst hba
      cases hpb : p b with
      | false => rfl
      | true => exact absurd hpb hb

theorem dropWhileEqSelf {α : Type} (p : α → Bool) {l : List α}
    (h : ∀ a, l.head? = some a → p a = false) : l.dropWhile p = l := by
  cases l with
  | nil => simp
  | cons b t =>
    rw [List.dropWhile_cons]
    simp [h b rfl]

theorem dropWhileIdem {α : Type} (p : α → Bool) (l : List α) :
    (l.dropWhile p).dropWhile p = l.dropWhile p := by
  apply dropWhileEqSelf
  intro a h
  exact dropWhileHeadFalse p h

theorem headAppendOfNeNil {α : Type} {l l' : List α} (h : l ≠ []) :
    (l ++ l').head? = l.head? := by
  cases l with
  | nil => exact absurd rfl h
  | cons b t => simp

theorem pyStripListNilIff (cs : List Char) :
    pyStripList cs = [] ↔ ∀ c ∈ cs, isPySpace c = true := by
  unfold pyStripList
  rw [List.reverse_eq_nil_iff, List.dropWhile_eq_nil_iff]
  constructor
  · intro h c hc
    by_cases hmem : c ∈ cs.dropWhile isPySpace
    · exact h c (by simpa using hmem)
    · have hsplit := List.takeWhile_append_dropWhile isPySpace cs
      rw [← hsplit] at hc
      rcases List.mem_append.mp hc with htk | hdk
      · exact List.mem_takeWhile_imp htk
      · exact absurd hdk hmem
  · intro h c hc
    exact h c ((List.dropWhile_sublist isPySpace).subset (by simpa using hc))

theorem pyStripListRevEq (cs : List Char) :
    (pyStripList cs).reverse = (cs.dropWhile isPySpace).reverse.dropWhile isPySpace := by
  simp [pyStripList]

theorem pyStripListHeadRev {cs : List Char} {a : Char}
    (hself : pyStripList cs = cs) (h : cs.reverse.head? = some a) :
    isPySpace a = false := by
  have h1 := pyStripListRevEq cs
  rw [hself] at h1
  rw [h1] at h
  exact dropWhileHeadFalse isPySpace h

theorem headRevDrop {cs : List Char} {k : Nat} (hk : k < cs.length) :
    cs.reverse.head? = (cs.drop k).reverse.head? := by
  have hne : cs.drop k ≠ [] := by
    intro h
    have := List.drop_eq_nil_iff.mp h
    omega
  have hrevne : (cs.drop k).reverse ≠ [] := by
    simpa using hne
  conv_lhs => rw [← List.take_append_drop k cs, List.reverse_append]
  rw [headAppendOfNeNil hrevne]

theorem pyStripListDropNe {cs : List Char} {k : Nat}
    (hself : pyStripList cs = cs) (hk : k < cs.length) :
    pyStripList (cs.drop k) ≠ [] := by
  have hne : cs.drop k ≠ [] := by
    intro h
    have := List.drop_eq_nil_iff.mp h
    omega
  have hrevne : (cs.drop k).reverse ≠ [] := by simpa using hne
  obtain ⟨a, ha⟩ : ∃ a, (cs.drop k).reverse.head? = some a := by
    cases hh : (cs.drop k).reverse with
    | nil => exact absurd hh hrevne
    | cons b t => exact ⟨b, by simp [hh]⟩
  have haws : isPySpace a = false := by
    apply pyStripListHeadRev hself
    rw [headRevDrop hk]
    exact ha
  intro hnil
  have hall := (pyStripListNilIff (cs.drop k)).mp hnil
  have hmem : a ∈ cs.drop k := by
    have := headSomeMem ha
    simpa using this
  rw [hall a hmem] at haws
  exact Bool.true_eq_false.mp haws

theorem pyStripListIdem (cs : List Char) :
    pyStripList (pyStripList cs) = pyStripList cs := by
  have hy : pyStripList cs
      = ((cs.dropWhile isPySpace).reverse.dropWhile isPySpace).reverse := rfl
  by_cases hznil : (cs.dropWhile isPySpace).reverse.dropWhile isPySpace = []
  · rw [hy, hznil]
    rfl
  · have hzrevne :
        ((cs.dropWhile isPySpace).reverse.dropWhile isPySpace).reverse ≠ [] := by
      simpa using hznil
    have hw :
        cs.dropWhile isPySpace
          = ((cs.dropWhile isPySpace).reverse.dropWhile isPySpace).reverse
            ++ ((cs.dropWhile isPySpace).reverse.takeWhile isPySpace).reverse := by
      conv_lhs =>
        rw [← List.reverse_reverse (cs.dropWhile isPySpace),
          ← List.takeWhile_append_dropWhile isPySpace (cs.dropWhile isPySpace).reverse,
          List.reverse_append]
    have hheadA : ∀ a, (pyStripList cs).head? = some a → isPySpace a = false := by
      intro a ha
      rw [hy] at ha
      have hweq : (cs.dropWhile isPySpace).head? = some a := by
        rw [hw, headAppendOfNeNil hzrevne]
        exact ha
      exact dropWhileHeadFalse isPySpace hweq
    have hA : (pyStripList cs).dropWhile isPySpace = pyStripList cs :=
      dropWhileEqSelf isPySpace hheadA
    show (((pyStripList cs).dropWhile isPySpace).reverse.dropWhile isPySpace).reverse
        = pyStripList cs
    rw [hA, hy, List.reverse_reverse, dropWhileIdem]

theorem pyStripIdem (s : String) : pyStrip (pyStrip s) = pyStrip s := by
  simp [pyStrip, pyStripListIdem]

theorem stringNeOfDataNe {s : String} (h : s.data ≠ []) : s ≠ "" := by
  intro he
  rw [he] at h
  exact h rfl

/-! ### Command extraction yields no empty command -/

theorem extractCmdLineNeEmpty {cur : Option String} {line : String} {c : String}
    (hcur : ∀ c', cur = some c' → c' ≠ "")
    (h : extractCmdLine cur line = some c) : c ≠ "" := by
  unfold extractCmdLine at h
  by_cases h1 : pyStartsWith (pyStrip line) ">" ∧ 1 < (pyStrip line).data.length
  · rw [if_pos h1] at h
    have hc : c = pyStrip (pyDrop (pyStrip line) 1) := by
      injection h with h'
      exact h'.symm
    subst hc
    apply stringNeOfDataNe
    show pyStripList ((pyStrip line).data.drop 1) ≠ []
    have hdata : (pyStrip line).data = pyStripList line.data := rfl
    rw [hdata]
    exact pyStripListDropNe (pyStripListIdem line.data) (by
      have := h1.2
      rw [hdata] at this
      exact this)
  · rw [if_neg h1] at h
    by_cases h2 : pyStartsWith (pyLower (pyStrip line)) "==>" ∧ 3 < (pyStrip line).data.length
    · rw [if_pos h2] at h
      have hc : c = pyStrip (pyDrop (pyStrip line) 3) := by
        injection h with h'
        exact h'.symm
      subst hc
      apply stringNeOfDataNe
      show pyStripList ((pyStrip line).data.drop 3) ≠ []
      have hdata : (pyStrip line).data = pyStripList line.data := rfl
      rw [hdata]
      exact pyStripListDropNe (pyStripListIdem line.data) (by
        have := h2.2
        rw [hdata] at this
        exact this)
    · rw [if_neg h2] at h
      exact hcur c h

theorem extractCmdFoldNeEmpty :
    ∀ (lines : List String) (cur : Option String),
      (∀ c', cur = some c' → c' ≠ "") →
      ∀ c, lines.foldl extractCmdLine cur = some c → c ≠ "" := by
  intro lines
  induction lines with
  | nil => intro cur hcur c h; exact hcur c h
  | cons l rest ih =>
    intro cur hcur c h
    exact ih (extractCmdLine cur l)
      (fun c' h' => extractCmdLineNeEmpty hcur h') c h

theorem extractCmdNeEmpty {t : String} {c : String}
    (h : extractCmd t = some c) : c ≠ "" := by
  unfold extractCmd at h
  by_cases ht : t = ""
  · rw [if_pos ht] at h; exact absurd h (by simp)
  · rw [if_neg ht] at h
    exact extractCmdFoldNeEmpty _ none (by simp) c h

/-! ### Segmenter invariant: no page carries an empty command -/

/-- No completed page and not the accumulator carries `command_text = some ""`. -/
def noEmptyCmd (st : SegState) : Prop :=
  (∀ p ∈ st.pages, p.command_text ≠ some "") ∧ st.current.command_text ≠ some ""

theorem applyCommandNoEmpty {st : SegState} {cmd : Option String} {ts : Nat}
    (h : noEmptyCmd st) (hc : cmd ≠ some "") : noEmptyCmd (applyCommand st cmd ts) := by
  obtain ⟨hp, hcur⟩ := h
  cases cmd with
  | none => exact ⟨hp, hcur⟩
  | some c =>
    have hc' : some c ≠ some "" := hc
    have hred : applyCommand st (some c) ts =
        if hasContent st.current then
          ⟨st.pages ++ [{ st.current with command_text := some c, last_ts := some ts }],
            freshPage⟩
        else if st.current.command_text.isSome then
          ⟨st.pages ++ [st.current],
            { freshPage with command_text := some c, last_ts := some ts }⟩
        else
          ⟨st.pages, { st.current with command_text := some c, last_ts := some ts }⟩ :=
      rfl
    rw [hred]
    by_cases h1 : hasContent st.current
    · rw [if_pos h1]
      refine ⟨?_, by simp [freshPage]⟩
      intro p hpmem
      rcases List.mem_append.mp hpmem with hin | hlast
      · exact hp p hin
      · simp at hlast
        rw [hlast]
        simpa using hc'
    · rw [if_neg h1]
      by_cases h2 : st.current.command_text.isSome
      · rw [if_pos h2]
        refine ⟨?_, by simpa using hc'⟩
        intro p hpmem
        rcases List.mem_append.mp hpmem with hin | hlast
        · exact hp p hin
        · simp at hlast
          rw [hlast]
          exact hcur
      · rw [if_neg h2]
        exact ⟨hp, by simpa using hc'⟩

theorem applyParasParts (st : SegState) (t : String) (ts : Nat) :
    (applyParas st t ts).pages = st.pages ∧
    (applyParas st t ts).current.images = st.current.images ∧
    (applyParas st t ts).current.command_text = st.current.command_text := by
  unfold applyParas
  by_cases h1 : t = ""
  · simp [h1]
  · rw [if_neg h1]
    by_cases h2 : (normalize_paragraphs t).isEmpty
    · simp [h2]
    · simp [h2]

theorem applyAttParts (st : SegState) (ts : Nat) (a : Att) :
    (applyAtt st ts a).pages = st.pages ∧
    (applyAtt st ts a).current.paragraphs = st.current.paragraphs ∧
    (applyAtt st ts a).current.command_text = st.current.command_text := by
  unfold applyAtt
  by_cases h1 : is_image_attachment a
  · simp [h1]
  · rw [if_neg h1]
    by_cases h2 : is_video_attachment a
    · simp [h2]
    · simp [h2]

theorem applyEmbParts (st : SegState) (ts : Nat) (e : Emb) :
    (applyEmb st ts e).pages = st.pages ∧
    (applyEmb st ts e).current.paragraphs = st.current.paragraphs ∧
    (applyEmb st ts e).current.command_text = st.current.command_text := by
  unfold applyEmb
  cases e.image_url <;> cases e.thumbnail_url <;> cases e.video_url <;> simp

theorem attFoldParts (ts : Nat) :
    ∀ (atts : List Att) (st : SegState),
      (atts.foldl (fun s a => applyAtt s ts a) st).pages = st.pages ∧
      (atts.foldl (fun s a => applyAtt s ts a) st).current.paragraphs
        = st.current.paragraphs ∧
      (atts.foldl (fun s a => applyAtt s ts a) st).current.command_text
        = st.current.command_text := by
  intro atts
  induction atts with
  | nil => intro st; exact ⟨rfl, rfl, rfl⟩
  | cons a rest ih =>
    intro st
    have h1 := applyAttParts st ts a
    have h2 := ih (applyAtt st ts a)
    simp only [List.foldl_cons]
    exact ⟨h2.1.trans h1.1, h2.2.1.trans h1.2.1, h2.2.2.trans h1.2.2⟩

theorem embFoldParts (ts : Nat) :
    ∀ (embeds : List Emb) (st : SegState),
      (embeds.foldl (fun s e => applyEmb s ts e) st).pages = st.pages ∧
      (embeds.foldl (fun s e => applyEmb s ts e) st).current.paragraphs
        = st.current.paragraphs ∧
      (embeds.foldl (fun s e => applyEmb s ts e) st).current.command_text
        = st.current.command_text := by
  intro embeds
  induction embeds with
  | nil => intro st; exact ⟨rfl, rfl, rfl⟩
  | cons e rest ih =>
    intro st
    have h1 := applyEmbParts st ts e
    have h2 := ih (applyEmb st ts e)
    simp only [List.foldl_cons]
    exact ⟨h2.1.trans h1.1, h2.2.1.trans h1.2.1, h2.2.2.trans h1.2.2⟩

theorem processMessageNoEmpty {cfg : Config} {st : SegState} {m : Msg}
    (h : noEmptyCmd st) : noEmptyCmd (processMessage cfg st m) := by
  unfold processMessage
  by_cases hskip : !cfg.allowed.isEmpty && !(decide (m.author ∈ cfg.allowed))
  · rw [if_pos hskip]; exact h
  · rw [if_neg hskip]
    have h1 : noEmptyCmd (applyCommand st (extractCmd (messageText cfg m)) m.created_at) := by
      apply applyCommandNoEmpty h
      intro hbad
      exact extractCmdNeEmpty hbad rfl
    set st1 := applyCommand st (extractCmd (messageText cfg m)) m.created_at
    set st2 := applyParas st1 (messageText cfg m) m.created_at with hst2
    have h2 : noEmptyCmd st2 := by
      obtain ⟨hpg, hcm⟩ := h1
      have hparts := applyParasParts st1 (messageText cfg m) m.created_at
      constructor
      · rw [hst2, hparts.1]; exact hpg
      · rw [hst2, hparts.2.2]; exact hcm
    set st3 := m.attachments.foldl (fun s a => applyAtt s m.created_at a) st2 with hst3
    have h3 : noEmptyCmd st3 := by
      obtain ⟨hpg, hcm⟩ := h2
      have hparts := attFoldParts m.created_at m.attachments st2
      constructor
      · rw [hst3, hparts.1]; exact hpg
      · rw [hst3, hparts.2.2]; exact hcm
    obtain ⟨hpg, hcm⟩ := h3
    have hparts := embFoldParts m.created_at m.embeds st3
    constructor
    · rw [hparts.1]; exact hpg
    · rw [hparts.2.2]; exact hcm

theorem foldNoEmpty (cfg : Config) :
    ∀ (msgs : List Msg) (st : SegState),
      noEmptyCmd st → noEmptyCmd (msgs.foldl (processMessage cfg) st) := by
  intro msgs
  induction msgs with
  | nil => intro st h; exact h
  | cons m rest ih =>
    intro st h
    exact ih (processMessage cfg st m) (processMessageNoEmpty h)

/-- Claim C10 (confirmed): every page the segmenter returns has a command that
is absent or a non-empty string; `command_text = some ""` is impossible, since
a line consisting solely of the `>` or `==>` marker never sets a candidate and
any accepted candidate strips to a non-empty string. -/
theorem c10_no_empty_command (cfg : Config) (msgs : List Msg) :
    ∀ p ∈ parse_pages_from_messages cfg msgs, p.command_text ≠ some "" := by
  intro p hp
  unfold parse_pages_from_messages at hp
  have hinv : noEmptyCmd (msgs.foldl (processMessage cfg) ⟨[], freshPage⟩) := by
    apply foldNoEmpty
    exact ⟨by simp, by simp [freshPage]⟩
  obtain ⟨hpg, hcm⟩ := hinv
  by_cases hne : pageNonEmpty (msgs.foldl (processMessage cfg) ⟨[], freshPage⟩).current
  · rw [if_pos hne] at hp
    rcases List.mem_append.mp hp with hin | hlast
    · exact hpg p hin
    · simp at hlast
      rw [hlast]
      exact hcm
  · rw [if_neg hne] at hp
    exact hpg p hp

/-- Witness for C10 at a concrete input: the message `"> go"` yields one page,
and its command is not the empty string. -/
theorem c10_no_empty_command_witness :
    (⟨[], [], [], some "go", some 0⟩ : RawPage) ∈
      parse_pages_from_messages ⟨fun s => s, []⟩ [⟨0, "> go", [], [], 0⟩] ∧
    (⟨[], [], [], some "go", some 0⟩ : RawPage).command_text ≠ some "" := by
  refine ⟨by decide, ?_⟩
  exact c10_no_empty_command ⟨fun s => s, []⟩ [⟨0, "> go", [], [], 0⟩]
    ⟨[], [], [], some "go", some 0⟩ (by decide)

/-! ### Claim C8: size enforcement in `download_image` -/

theorem streamChunksOver (limitBytes : Nat) :
    ∀ (chunks : List Nat) (written size : Nat),
      written ≤ limitBytes → limitBytes < written + chunks.sum →
      streamChunks limitBytes chunks written size = (false, none) := by
  intro chunks
  induction chunks with
  | nil =>
    intro written size hle hgt
    simp at hgt
    omega
  | cons c rest ih =>
    intro written size hle hgt
    by_cases hc : c = 0
    · unfold streamChunks
      rw [if_pos hc]
      apply ih
      · exact hle
      · subst hc; simpa using hgt
    · unfold streamChunks
      rw [if_neg hc]
      by_cases hw : limitBytes < written + c
      · simp [hw]
      · rw [if_neg hw]
        apply ih
        · omega
        · have : (c :: rest).sum = c + rest.sum := by simp
          omega

/-- Claim C8 (confirmed): when the streamed body exceeds the configured byte
limit, `download_image` reports failure and leaves no file — not even a
truncated one — at the destination path. -/
theorem c8_size_enforcement (chunks : List Nat) (limitBytes : Nat)
    (h : limitBytes < chunks.sum) :
    download_image true true chunks limitBytes = (false, none) := by
  unfold download_image
  simp only [Bool.not_true, Bool.false_eq_true, if_false]
  exact streamChunksOver limitBytes chunks 0 0 (Nat.zero_le _) (by simpa using h)

/-- Witness for C8: a two-chunk body of 200 bytes against a 150-byte limit is
dropped and leaves no file. -/
theorem c8_size_enforcement_witness :
    150 < ([100, 100] : List Nat).sum ∧
    download_image true true [100, 100] 150 = (false, none) :=
  ⟨by decide, c8_size_enforcement [100, 100] 150 (by decide)⟩

/-! ### Claim C3: media after a command in the same message lands on the next page -/

theorem applyCommandCases (st : SegState) (c : String) (ts : Nat) :
    applyCommand st (some c) ts
      = (if hasContent st.current then
          ⟨st.pages ++ [{ st.current with command_text := some c, last_ts := some ts }],
            freshPage⟩
        else if st.current.command_text.isSome then
          ⟨st.pages ++ [st.current],
            { freshPage with command_text := some c, last_ts := some ts }⟩
        else
          ⟨st.pages, { st.current with command_text := some c, last_ts := some ts }⟩) :=
  rfl

theorem applyAttImages (st : SegState) (ts : Nat) (a : Att) :
    (applyAtt st ts a).current.images
      = st.current.images ++ (if is_image_attachment a then [a.url] else []) := by
  unfold applyAtt
  by_cases h1 : is_image_attachment a
  · simp [h1]
  · rw [if_neg h1]
    by_cases h2 : is_video_attachment a
    · simp [h1, h2]
    · simp [h1, h2]

theorem attFoldImages (ts : Nat) :
    ∀ (atts : List Att) (st : SegState),
      (atts.foldl (fun s a => applyAtt s ts a) st).current.images
        = st.current.images ++ attImageUrls atts := by
  intro atts
  induction atts with
  | nil => intro st; simp [attImageUrls]
  | cons a rest ih =>
    intro st
    simp only [List.foldl_cons]
    rw [ih, applyAttImages]
    by_cases h : is_image_attachment a
    · simp [attImageUrls, List.filter_cons, h]
    · simp [attImageUrls, List.filter_cons, h]

theorem applyEmbImages (st : SegState) (ts : Nat) (e : Emb) :
    (applyEmb st ts e).current.images
      = st.current.images ++ (e.image_url.toList ++ e.thumbnail_url.toList) := by
  unfold applyEmb
  cases e.image_url <;> cases e.thumbnail_url <;> cases e.video_url <;> simp

theorem embFoldImages (ts : Nat) :
    ∀ (embeds : List Emb) (st : SegState),
      (embeds.foldl (fun s e => applyEmb s ts e) st).current.images
        = st.current.images ++ embImageUrls embeds := by
  intro embeds
  induction embeds with
  | nil => intro st; simp [embImageUrls]
  | cons e rest ih =>
    intro st
    simp only [List.foldl_cons]
    rw [ih, applyEmbImages]
    simp [embImageUrls]

/-- Claim C3 (confirmed): when a message carries both a command line and image
attachments while the current page already has content, the segmenter closes
the current page with that command attached and the message's images land on
the newly started page — never on the page bearing the command (the closed
page keeps exactly its previous image list). -/
theorem c3_media_command_ordering (cfg : Config) (st : SegState) (m : Msg)
    (c : String)
    (hAllow : cfg.allowed = [] ∨ m.author ∈ cfg.allowed)
    (hCmd : extractCmd (messageText cfg m) = some c)
    (hContent : hasContent st.current = true) :
    (processMessage cfg st m).pages
      = st.pages ++
        [{ st.current with command_text := some c, last_ts := some m.created_at }] ∧
    (processMessage cfg st m).current.images
      = attImageUrls m.attachments ++ embImageUrls m.embeds := by
  have hguard : (!cfg.allowed.isEmpty && !(decide (m.author ∈ cfg.allowed))) = false := by
    rcases hAllow with h | h
    · simp [h]
    · simp [h]
  unfold processMessage
  rw [hguard]
  simp only [Bool.false_eq_true, if_false]
  rw [hCmd, applyCommandCases, if_pos hContent]
  constructor
  · rw [(embFoldParts m.created_at m.embeds _).1, (attFoldParts m.created_at m.attachments _).1,
      (applyParasParts _ _ _).1]
  · rw [embFoldImages, attFoldImages, (applyParasParts _ _ _).2.1]
    simp [freshPage]

/-- Witness for C3: a page holding the paragraph `"hello"` followed by the
message `"> go north"` with one image attachment gives the command to the
closed page and the image to the new page. -/
theorem c3_media_command_ordering_witness :
    extractCmd (messageText ⟨fun s => s, []⟩
        ⟨7, "> go north", [⟨"http://x/i.png", some "image/png", some "i.png"⟩], [], 5⟩)
      = some "go north" ∧
    hasContent (⟨[], [], ["hello"], none, some 1⟩ : RawPage) = true ∧
    (processMessage ⟨fun s => s, []⟩ ⟨[], ⟨[], [], ["hello"], none, some 1⟩⟩
        ⟨7, "> go north", [⟨"http://x/i.png", some "image/png", some "i.png"⟩], [], 5⟩).pages
      = [] ++ [⟨[], [], ["hello"], some "go north", some 5⟩] ∧
    (processMessage ⟨fun s => s, []⟩ ⟨[], ⟨[], [], ["hello"], none, some 1⟩⟩
        ⟨7, "> go north", [⟨"http://x/i.png", some "image/png", some "i.png"⟩], [], 5⟩).current.images
      = attImageUrls [⟨"http://x/i.png", some "image/png", some "i.png"⟩] ++ embImageUrls [] := by
  refine ⟨by decide, by decide, ?_⟩
  exact c3_media_command_ordering ⟨fun s => s, []⟩ ⟨[], ⟨[], [], ["hello"], none, some 1⟩⟩
    ⟨7, "> go north", [⟨"http://x/i.png", some "image/png", some "i.png"⟩], [], 5⟩
    "go north" (Or.inl rfl) (by decide) (by decide)

/-! ### Claim C7: which command-marker lines survive into paragraphs -/

theorem npStepInv {acc : List String × List String} {line : String}
    (hb : ∀ b ∈ acc.1, goodPara b)
    (hf : ∀ s ∈ acc.2,
      pyStartsWith s ">" = false ∧ s ≠ "" ∧ s ≠ "~" ∧ pyStrip s = s) :
    (∀ b ∈ (npStep acc line).1, goodPara b) ∧
    (∀ s ∈ (npStep acc line).2,
      pyStartsWith s ">" = false ∧ s ≠ "" ∧ s ≠ "~" ∧ pyStrip s = s) := by
  unfold npStep
  by_cases h1 : pyStrip line = "~" ∨ pyStrip line = ""
  · rw [if_pos h1]
    by_cases h2 : acc.2 ≠ []
    · rw [if_pos h2]
      constructor
      · intro b hbm
        rcases List.mem_append.mp hbm with hin | hlast
        · exact hb b hin
        · simp at hlast
          rw [hlast]
          exact ⟨acc.2, h2, hf, rfl⟩
      · simp
    · rw [if_neg h2]
      exact ⟨hb, hf⟩
  · rw [if_neg h1]
    by_cases h3 : pyStartsWith (pyStrip line) ">" = true
    · rw [if_pos h3]
      exact ⟨hb, hf⟩
    · rw [if_neg h3]
      refine ⟨hb, ?_⟩
      intro s hs
      rcases List.mem_append.mp hs with hin | hlast
      · exact hf s hin
      · simp at hlast
        rw [hlast]
        push_neg at h1
        refine ⟨by simpa using h3, h1.2, h1.1, pyStripIdem line⟩

theorem npFoldInv :
    ∀ (lines : List String) (acc : List String × List String),
      (∀ b ∈ acc.1, goodPara b) →
      (∀ s ∈ acc.2,
        pyStartsWith s ">" = false ∧ s ≠ "" ∧ s ≠ "~" ∧ pyStrip s = s) →
      (∀ b ∈ (lines.foldl npStep acc).1, goodPara b) ∧
      (∀ s ∈ (lines.foldl npStep acc).2,
        pyStartsWith s ">" = false ∧ s ≠ "" ∧ s ≠ "~" ∧ pyStrip s = s) := by
  intro lines
  induction lines with
  | nil => intro acc hb hf; exact ⟨hb, hf⟩
  | cons l rest ih =>
    intro acc hb hf
    have h1 := @npStepInv acc l hb hf
    simpa using ih (npStep acc l) h1.1 h1.2

theorem normalizeParagraphsGood (t : String) :
    ∀ b ∈ normalize_paragraphs t, goodPara b := by
  intro b hbmem
  unfold normalize_paragraphs at hbmem
  by_cases ht : t = ""
  · rw [if_pos ht] at hbmem
    simp at hbmem
  · rw [if_neg ht] at hbmem
    simp only at hbmem
    have hinv := npFoldInv
      (((splitChar '\n'
          ((replaceCRLF t.data).map (fun c => if c = '\r' then '\n' else c))).map
          String.mk)) ([], []) (by simp) (by simp)
    have hbl := List.mem_of_mem_filter hbmem
    by_cases hbuf :
        (((splitChar '\n'
          ((replaceCRLF t.data).map (fun c => if c = '\r' then '\n' else c))).map
          String.mk).foldl npStep ([], [])).2 ≠ []
    · rw [if_pos hbuf] at hbl
      rcases List.mem_append.mp hbl with hin | hlast
      · exact hinv.1 b hin
      · simp at hlast
        rw [hlast]
        exact ⟨_, hbuf, hinv.2, rfl⟩
    · rw [if_neg hbuf] at hbl
      exact hinv.1 b hbl

/-- Paragraph invariant over the scanner state. -/
def parasGood (st : SegState) : Prop :=
  (∀ p ∈ st.pages, ∀ b ∈ p.paragraphs, goodPara b) ∧
  (∀ b ∈ st.current.paragraphs, goodPara b)

theorem applyCommandParasGood {st : SegState} {cmd : Option String} {ts : Nat}
    (h : parasGood st) : parasGood (applyCommand st cmd ts) := by
  obtain ⟨hp, hc⟩ := h
  cases cmd with
  | none => exact ⟨hp, hc⟩
  | some c =>
    rw [applyCommandCases]
    by_cases h1 : hasContent st.current
    · rw [if_pos h1]
      refine ⟨?_, by simp [freshPage]⟩
      intro p hpmem b hbm
      rcases List.mem_append.mp hpmem with hin | hlast
      · exact hp p hin b hbm
      · simp at hlast
        rw [hlast] at hbm
        exact hc b hbm
    · rw [if_neg h1]
      by_cases h2 : st.current.command_text.isSome
      · rw [if_pos h2]
        refine ⟨?_, by simp [freshPage]⟩
        intro p hpmem b hbm
        rcases List.mem_append.mp hpmem with hin | hlast
        · exact hp p hin b hbm
        · simp at hlast
          rw [hlast] at hbm
          exact hc b hbm
      · rw [if_neg h2]
        exact ⟨hp, hc⟩

theorem applyParasParasGood {st : SegState} {t : String} {ts : Nat}
    (h : parasGood st) : parasGood (applyParas st t ts) := by
  obtain ⟨hp, hc⟩ := h
  unfold applyParas
  by_cases h1 : t = ""
  · rw [if_pos h1]; exact ⟨hp, hc⟩
  · rw [if_neg h1]
    by_cases h2 : (normalize_paragraphs t).isEmpty
    · rw [if_pos h2]; exact ⟨hp, hc⟩
    · rw [if_neg h2]
      refine ⟨hp, ?_⟩
      intro b hbm
      simp only at hbm
      rcases List.mem_append.mp hbm with hin | hnew
      · exact hc b hin
      · exact normalizeParagraphsGood t b hnew

theorem processMessageParasGood {cfg : Config} {st : SegState} {m : Msg}
    (h : parasGood st) : parasGood (processMessage cfg st m) := by
  unfold processMessage
  by_cases hskip : !cfg.allowed.isEmpty && !(decide (m.author ∈ cfg.allowed))
  · rw [if_pos hskip]; exact h
  · rw [if_neg hskip]
    have h1 := @applyCommandParasGood st (extractCmd (messageText cfg m)) m.created_at h
    have h2 := @applyParasParasGood _ (messageText cfg m) m.created_at h1
    set st2 := applyParas (applyCommand st (extractCmd (messageText cfg m)) m.created_at)
      (messageText cfg m) m.created_at with hst2
    have hatt := attFoldParts m.created_at m.attachments st2
    set st3 := m.attachments.foldl (fun s a => applyAtt s m.created_at a) st2 with hst3
    have h3 : parasGood st3 := by
      obtain ⟨hpg, hcm⟩ := h2
      constructor
      · rw [hst3, hatt.1]; exact hpg
      · rw [hst3, hatt.2.1]; exact hcm
    have hemb := embFoldParts m.created_at m.embeds st3
    obtain ⟨hpg, hcm⟩ := h3
    constructor
    · rw [hemb.1]; exact hpg
    · rw [hemb.2.1]; exact hcm

theorem foldParasGood (cfg : Config) :
    ∀ (msgs : List Msg) (st : SegState),
      parasGood st → parasGood (msgs.foldl (processMessage cfg) st) := by
  intro msgs
  induction msgs with
  | nil => intro st h; exact h
  | cons m rest ih =>
    intro st h
    exact ih (processMessage cfg st m) (processMessageParasGood h)

/-- Counterexample to claim C7 as stated: the message `"==> Go"` is recognized
as a command line (it sets the command `"Go"`), yet the very same line
survives, whole, as a paragraph of the produced page — `normalize_paragraphs`
only drops lines starting with `>`, not `==>` lines. -/
theorem c7_counterexample :
    extractCmd "==> Go" = some "Go" ∧
    parse_pages_from_messages ⟨fun s => s, []⟩ [⟨0, "==> Go", [], [], 0⟩]
      = [⟨[], [], ["==> Go"], some "Go", some 0⟩] := by
  constructor
  · decide
  · decide

/-- Claim C7 (corrected): every paragraph of every produced page is the
space-join of stripped lines none of which begins with the `>` marker — pure
`>` command lines are dropped — but `==>` command lines are not dropped and
can appear in paragraphs. -/
theorem c7_amended_paragraph_blocks (cfg : Config) (msgs : List Msg) :
    ∀ p ∈ parse_pages_from_messages cfg msgs, ∀ b ∈ p.paragraphs, goodPara b := by
  intro p hp b hbm
  unfold parse_pages_from_messages at hp
  have hinv : parasGood (msgs.foldl (processMessage cfg) ⟨[], freshPage⟩) := by
    apply foldParasGood
    exact ⟨by simp, by simp [freshPage]⟩
  obtain ⟨hpg, hcm⟩ := hinv
  by_cases hne : pageNonEmpty (msgs.foldl (processMessage cfg) ⟨[], freshPage⟩).current
  · rw [if_pos hne] at hp
    rcases List.mem_append.mp hp with hin | hlast
    · exact hpg p hin b hbm
    · simp at hlast
      rw [hlast] at hbm
      exact hcm b hbm
  · rw [if_neg hne] at hp
    exact hpg p hp b hbm

/-- Witness for the amended C7 at a concrete input: the single paragraph
produced from `"hello\n> cmd"` is a join of non-command lines. -/
theorem c7_amended_paragraph_blocks_witness :
    (⟨[], [], ["hello"], some "cmd", some 0⟩ : RawPage) ∈
      parse_pages_from_messages ⟨fun s => s, []⟩ [⟨0, "hello\n> cmd", [], [], 0⟩] ∧
    "hello" ∈ (⟨[], [], ["hello"], some "cmd", some 0⟩ : RawPage).paragraphs ∧
    goodPara "hello" := by
  refine ⟨by decide, by decide, ?_⟩
  exact c7_amended_paragraph_blocks ⟨fun s => s, []⟩ [⟨0, "hello\n> cmd", [], [], 0⟩]
    ⟨[], [], ["hello"], some "cmd", some 0⟩ (by decide) "hello" (by decide)

/-! ### Claim C5: direction of the manual command shift -/

theorem shiftLoopNotMem :
    ∀ (l : List Nat) (m : Nat → Option String) (n : Nat), n ∉ l →
      l.foldl shiftStep m n = m n := by
  intro l
  induction l with
  | nil => intro m n _; rfl
  | cons a rest ih =>
    intro m n hn
    simp only [List.foldl_cons]
    rw [ih _ n (fun hmem => hn (List.mem_cons_of_mem a hmem))]
    have hna : n ≠ a := fun heq => hn (heq ▸ List.mem_cons_self a rest)
    unfold shiftStep
    by_cases ht : truthyS (m (a + 1)) = true
    · rw [if_pos ht]
      simp [hna]
    · rw [if_neg ht]

theorem shiftRangeSpec :
    ∀ (k a : Nat) (m : Nat → Option String) (n : Nat), a ≤ n → n < a + k →
      (List.range' a k).foldl shiftStep m n
        = if truthyS (m (n + 1)) then m (n + 1) else m n := by
  intro k
  induction k with
  | zero => intro a m n h1 h2; omega
  | succ k ih =>
    intro a m n h1 h2
    rw [List.range'_succ]
    simp only [List.foldl_cons]
    by_cases hna : n = a
    · subst hna
      rw [shiftLoopNotMem _ _ n (by
        intro hmem
        rw [List.mem_range'_1] at hmem
        omega)]
      unfold shiftStep
      by_cases ht : truthyS (m (n + 1)) = true
      · rw [if_pos ht]
        simp [ht]
      · rw [if_neg ht]
        rw [if_neg (by simpa using ht)]
    · have hanext : n + 1 ≠ a := by omega
      have hstep1 : shiftStep m a (n + 1) = m (n + 1) := by
        unfold shiftStep
        by_cases ht : truthyS (m (a + 1)) = true
        · rw [if_pos ht]
          simp [hanext]
        · rw [if_neg ht]
      have hstep2 : shiftStep m a n = m n := by
        unfold shiftStep
        by_cases ht : truthyS (m (a + 1)) = true
        · rw [if_pos ht]
          simp [hna]
        · rw [if_neg ht]
      rw [ih (a + 1) (shiftStep m a) n (by omega) (by omega), hstep1, hstep2]

/-- Counterexample to claim C5 as stated: with commands `A` on page 1 and `B`
on page 2, shift start 1 and last page 2, the claim predicts page 2's command
after the pass equals page 1's command before it (`A`); the code leaves page 2
at `B` (it is page 1 that pulls `B` from page 2). -/
theorem c5_counterexample :
    shiftCommands 1 2
        (fun n => if n = 1 then some "A" else if n = 2 then some "B" else none) 2
      = some "B" ∧
    shiftCommands 1 2
        (fun n => if n = 1 then some "A" else if n = 2 then some "B" else none) 1
      = some "B" ∧
    (some "B" : Option String) ≠ some "A" := by
  refine ⟨by decide, by decide, by decide⟩

/-- Claim C5 (corrected): the pass shifts commands backwards, not forwards:
for every page `N` with `start ≤ N < total` (the code takes `start` as the
maximum of the configured start page and the first new-channel page), after
the pass page `N`'s command equals the command page `N+1` had before the pass
when that was present and non-empty, and is unchanged otherwise; pages from
`total` up are untouched. -/
theorem c5_amended_command_shift (m : Nat → Option String) (start total n : Nat)
    (h1 : start ≤ n) (h2 : n < total) :
    shiftCommands start total m n
      = if truthyS (m (n + 1)) then m (n + 1) else m n := by
  unfold shiftCommands
  apply shiftRangeSpec
  · exact h1
  · omega

/-- Witness for the amended C5 at a concrete input: page 1 pulls page 2's
command. -/
theorem c5_amended_command_shift_witness :
    1 ≤ 1 ∧ 1 < 2 ∧
    shiftCommands 1 2
        (fun n => if n = 1 then some "A" else if n = 2 then some "B" else none) 1
      = (if truthyS ((fun n => if n = 1 then some "A" else
            if n = 2 then some "B" else none) (1 + 1))
         then (fun n => if n = 1 then some "A" else
            if n = 2 then some "B" else none) (1 + 1)
         else (fun n => if n = 1 then some "A" else
            if n = 2 then some "B" else none) 1) :=
  ⟨by decide, by decide,
    c5_amended_command_shift
      (fun n => if n = 1 then some "A" else if n = 2 then some "B" else none)
      1 2 1 (by decide) (by decide)⟩

/-! ### Claim C6: feed entry titles -/

/-- Counterexample to claim C6 as stated: page 1 has no command, page 2 has
command `X`; the claim predicts the feed title of page 2 falls back to page
2's own command `X`, but `render_atom` uses only the previous page's command
or the story title, giving `S`. -/
theorem c6_counterexample :
    feed_entry_title 2 [⟨[], [], [], none, none⟩, ⟨[], [], [], some "X", none⟩] "S"
      = "S" ∧
    ("S" : String) ≠ "X" := by
  refine ⟨by decide, by decide⟩

/-- Claim C6 (corrected): the feed entry title of page `N` is the previous
page's command when that is present and non-empty, and otherwise the story
title — the page's own command is never consulted; page 1 always gets the
story title. -/
theorem c6_amended_feed_title :
    (∀ (pages : List RawPage) (story : String),
      feed_entry_title 1 pages story = story) ∧
    (∀ (pages : List RawPage) (story : String) (i : Nat) (prev : RawPage),
      2 ≤ i → pages.get? (i - 2) = some prev →
      feed_entry_title i pages story
        = (match prev.command_text with
           | some c => if c = "" then story else c
           | none => story)) := by
  constructor
  · intro pages story
    simp [feed_entry_title, title_for_page_feed]
  · intro pages story i prev h2 hget
    have hne : i ≠ 1 := by omega
    unfold feed_entry_title title_for_page_feed
    rw [if_neg hne, hget]
    cases hct : prev.command_text with
    | none => simp [hct]
    | some c =>
      by_cases hc : c = ""
      · simp [hct, hc]
      · simp [hct, hc]

/-- Witness for the amended C6 at a concrete input: page 2's feed title is
page 1's command. -/
theorem c6_amended_feed_title_witness :
    2 ≤ 2 ∧
    ([⟨[], [], [], some "X", none⟩, ⟨[], [], [], some "Y", none⟩] :
        List RawPage).get? (2 - 2) = some ⟨[], [], [], some "X", none⟩ ∧
    feed_entry_title 2 [⟨[], [], [], some "X", none⟩, ⟨[], [], [], some "Y", none⟩] "S"
      = (match (⟨[], [], [], some "X", none⟩ : RawPage).command_text with
         | some c => if c = "" then "S" else c
         | none => "S") :=
  ⟨by decide, by decide,
    c6_amended_feed_title.2
      [⟨[], [], [], some "X", none⟩, ⟨[], [], [], some "Y", none⟩] "S" 2
      ⟨[], [], [], some "X", none⟩ (by decide) (by decide)⟩

/-! ### Claim C4: pruning of stray page files -/

theorem findFilterNone {d : Disk} {f : FName} {q : FName × String → Bool}
    (h : ∀ e ∈ d, e.1 = f → q e = false) :
    ((d.filter q).find? (fun e => e.1 == f)) = none := by
  induction d with
  | nil => rfl
  | cons e rest ih =>
    simp only [List.filter_cons]
    by_cases hq : q e = true
    · rw [if_pos hq, List.find?_cons]
      have hne : (e.1 == f) = false := by
        by_cases hef : e.1 = f
        · rw [h e (List.mem_cons_self e rest) hef] at hq
          exact absurd hq (by simp)
        · simpa using hef
      rw [hne]
      exact ih (fun e' he' hf' => h e' (List.mem_cons_of_mem e he') hf')
    · rw [if_neg hq]
      exact ih (fun e' he' hf' => h e' (List.mem_cons_of_mem e he') hf')

theorem prunedStrayGone (total : Nat) (d : Disk) (k : Nat)
    (h : k = 0 ∨ total < k) :
    readFile (pruneStray total d) (FName.page k) = none := by
  unfold readFile pruneStray
  rw [findFilterNone]
  · rfl
  · intro e _ hef
    rw [hef]
    exact decide_eq_false (by omega)

/-- Counterexample to claim C4 as stated: publishing one page through the
sitegen pipeline over a directory holding a stray `5.html` leaves the stray
file in place — `regenerate_site_from_channel` in sitegen.py performs no
pruning at all. -/
theorem c4_counterexample :
    readFile (publishOnce ["x"] false 1 [(FName.page 5, "old")]).disk (FName.page 5)
      = some "old" ∧
    (some "old" : Option String) ≠ none := by
  refine ⟨by decide, by decide⟩

/-- Claim C4 (corrected): only the single-channel pipeline in main.py prunes:
after its publish run over any directory, no numbered page file with a number
outside `[1, total]` remains; the two-channel sitegen pipeline never prunes,
so its strays persist. -/
theorem c4_amended_prune (htmls : List String) (d : Disk) (k : Nat)
    (h : k = 0 ∨ htmls.length < k) :
    readFile (mainpy_regenerate htmls d) (FName.page k) = none := by
  unfold mainpy_regenerate
  exact prunedStrayGone htmls.length _ k h

/-- Witness for the amended C4 at a concrete input: a stray `5.html` is gone
after main.py's publish of a single page. -/
theorem c4_amended_prune_witness :
    (5 = 0 ∨ (["a"] : List String).length < 5) ∧
    readFile (mainpy_regenerate ["a"] [(FName.page 5, "x")]) (FName.page 5) = none :=
  ⟨Or.inr (by decide),
    c4_amended_prune ["a"] [(FName.page 5, "x")] 5 (Or.inr (by decide))⟩

/-! ### Claim C2: publish idempotence -/

theorem readWriteSelf (d : Disk) (f : FName) (c : String) :
    readFile (writeFile d f c) f = some c := by
  simp [readFile, writeFile, List.find?_cons]

theorem findFilterNe {d : Disk} {f g : FName} (h : g ≠ f) :
    (d.filter (fun e => !(e.1 == f))).find? (fun e => e.1 == g)
      = d.find? (fun e => e.1 == g) := by
  induction d with
  | nil => rfl
  | cons e rest ih =>
    simp only [List.filter_cons]
    by_cases hef : e.1 = f
    · have h1 : (!(e.1 == f)) = false := by simp [hef]
      rw [h1]
      simp only [Bool.false_eq_true, if_false]
      rw [ih, List.find?_cons]
      have h2 : (e.1 == g) = false := by
        rw [beq_eq_false_iff_ne]
        rw [hef]
        exact fun hh => h hh.symm
      rw [h2]
    · have h1 : (!(e.1 == f)) = true := by simp [hef]
      rw [h1]
      simp only [if_true]
      rw [List.find?_cons, List.find?_cons]
      by_cases heg : e.1 = g
      · simp [heg]
      · have h2 : (e.1 == g) = false := by simpa using heg
        rw [h2]
        exact ih

theorem readWriteNe (d : Disk) (f g : FName) (c : String) (h : g ≠ f) :
    readFile (writeFile d f c) g = readFile d g := by
  unfold readFile writeFile
  rw [List.find?_cons]
  have h2 : (((f, c) : FName × String).1 == g) = false := by
    rw [beq_eq_false_iff_ne]
    exact fun hh => h hh.symm
  rw [h2]
  show ((d.filter (fun e => !(e.1 == f))).find? (fun e => e.1 == g)).map (fun e => e.2)
      = (d.find? (fun e => e.1 == g)).map (fun e => e.2)
  rw [findFilterNe h]

theorem wicReads (d : Disk) (f : FName) (c : String) :
    readFile (write_if_changed d f c).1 f = some c := by
  unfold write_if_changed
  cases hread : readFile d f with
  | none => exact readWriteSelf d f c
  | some old =>
    show readFile (if old = c then (d, false) else (writeFile d f c, true)).1 f = some c
    by_cases he : old = c
    · rw [if_pos he]
      rw [hread, he]
    · rw [if_neg he]
      exact readWriteSelf d f c

theorem wicPres (d : Disk) (f g : FName) (c : String) (h : g ≠ f) :
    readFile (write_if_changed d f c).1 g = readFile d g := by
  unfold write_if_changed
  cases hread : readFile d f with
  | none => exact readWriteNe d f g c h
  | some old =>
    show readFile (if old = c then (d, false) else (writeFile d f c, true)).1 g
        = readFile d g
    by_cases he : old = c
    · rw [if_pos he]
    · rw [if_neg he]
      exact readWriteNe d f g c h

theorem wicUnchanged (d : Disk) (f : FName) (c : String)
    (h : readFile d f = some c) :
    write_if_changed d f c = (d, false) := by
  unfold write_if_changed
  rw [h]
  show (if c = c then (d, false) else (writeFile d f c, true)) = (d, false)
  rw [if_pos rfl]

theorem publishLoopPost :
    ∀ (hs : List String) (d : Disk) (num : Nat),
      (∀ j, j < hs.length →
        readFile (publishPagesLoop d num hs).1 (FName.page (num + j)) = hs.get? j) ∧
      (∀ f : FName, (∀ j, j < hs.length → f ≠ FName.page (num + j)) →
        readFile (publishPagesLoop d num hs).1 f = readFile d f) := by
  intro hs
  induction hs with
  | nil =>
    intro d num
    constructor
    · intro j hj
      exact absurd hj (by simp)
    · intro f _
      rfl
  | cons h rest ih =>
    intro d num
    have hred : (publishPagesLoop d num (h :: rest)).1
        = (publishPagesLoop (write_if_changed d (FName.page num) h).1 (num + 1) rest).1 :=
      rfl
    have ihs := ih (write_if_changed d (FName.page num) h).1 (num + 1)
    constructor
    · intro j hj
      cases j with
      | zero =>
        rw [hred]
        rw [ihs.2 (FName.page (num + 0)) (by
          intro j' hj' heq
          simp only [FName.page.injEq] at heq
          omega)]
        simp only [Nat.add_zero]
        rw [wicReads]
        rfl
      | succ j' =>
        rw [hred]
        have harith : num + (j' + 1) = (num + 1) + j' := by omega
        rw [harith]
        have := ihs.1 j' (by simpa using hj)
        rw [this]
        rfl
    · intro f hf
      rw [hred]
      rw [ihs.2 f (by
        intro j' hj' heq
        have := hf (j' + 1) (by simpa using hj')
        rw [show num + (j' + 1) = (num + 1) + j' by omega] at this
        exact this heq)]
      exact wicPres d (FName.page num) f h (by
        have := hf 0 (by simp)
        simpa using this)

theorem publishLoopUnchanged :
    ∀ (hs : List String) (d : Disk) (num : Nat),
      (∀ j, j < hs.length → readFile d (FName.page (num + j)) = hs.get? j) →
      publishPagesLoop d num hs = (d, 0, hs.length) := by
  intro hs
  induction hs with
  | nil => intro d num _; rfl
  | cons h rest ih =>
    intro d num hread
    have h0 : readFile d (FName.page num) = some h := by
      have := hread 0 (by simp)
      simpa using this
    have hwic : write_if_changed d (FName.page num) h = (d, false) :=
      wicUnchanged d _ h h0
    have hrest : publishPagesLoop d (num + 1) rest = (d, 0, rest.length) := by
      apply ih
      intro j hj
      have := hread (j + 1) (by simpa using hj)
      rw [show num + (j + 1) = (num + 1) + j by omega] at this
      simpa using this
    have hred : publishPagesLoop d num (h :: rest)
        = ((publishPagesLoop (write_if_changed d (FName.page num) h).1 (num + 1) rest).1,
           (if (write_if_changed d (FName.page num) h).2 then 1 else 0)
             + (publishPagesLoop (write_if_changed d (FName.page num) h).1 (num + 1) rest).2.1,
           (if (write_if_changed d (FName.page num) h).2 then 0 else 1)
             + (publishPagesLoop (write_if_changed d (FName.page num) h).1 (num + 1) rest).2.2) :=
      rfl
    rw [hred, hwic]
    simp only [hrest]
    simp [Nat.add_comm]

theorem publishOnceEq (htmls : List String) (ns : Nat) (d : Disk)
    (hnil : htmls.isEmpty = false) :
    publishOnce htmls false ns d
      = ⟨(match readFile (publishPagesLoop d 1 htmls).1 (FName.page 1) with
          | some first =>
            (write_if_changed (publishPagesLoop d 1 htmls).1 FName.index first).1
          | none => (publishPagesLoop d 1 htmls).1),
         (publishPagesLoop d 1 htmls).2.1, (publishPagesLoop d 1 htmls).2.2⟩ := by
  unfold publishOnce
  rw [hnil]
  rfl

theorem publishOnceDiskPages (htmls : List String) (ns : Nat) (d : Disk)
    (hnil : htmls.isEmpty = false) :
    ∀ j, j < htmls.length →
      readFile (publishOnce htmls false ns d).disk (FName.page (1 + j))
        = htmls.get? j := by
  intro j hj
  rw [publishOnceEq htmls ns d hnil]
  simp only
  cases hfirst : readFile (publishPagesLoop d 1 htmls).1 (FName.page 1) with
  | none =>
    exact (publishLoopPost htmls d 1).1 j hj
  | some first =>
    rw [wicPres _ FName.index (FName.page (1 + j)) first (by simp)]
    exact (publishLoopPost htmls d 1).1 j hj

/-- Counterexample to claim C2 as stated: one new-channel page whose rendered
body carries a commands block.  After the first publish the boundary
stitching (`_ensure_next_link`) rewrites that block in place, so the second
publish — with unchanged input — finds the file differing from the render and
writes it again: 1 page written, 0 unchanged, against the claimed 0 written,
1 unchanged. -/
theorem c2_counterexample :
    (publishOnce ["<div class=\"commands\">&gt; <a href=\"2.html\">Go</a></div>"]
        true 1
        (publishOnce ["<div class=\"commands\">&gt; <a href=\"2.html\">Go</a></div>"]
          true 1 []).disk).written = 1 ∧
    (publishOnce ["<div class=\"commands\">&gt; <a href=\"2.html\">Go</a></div>"]
        true 1
        (publishOnce ["<div class=\"commands\">&gt; <a href=\"2.html\">Go</a></div>"]
          true 1 []).disk).unchanged = 0 ∧
    (1 : Nat) ≠ 0 := by
  refine ⟨by decide, by decide, by decide⟩

/-- Claim C2 (corrected): publish is idempotent exactly when no new-channel
pages are present (no boundary stitching runs): the second of two consecutive
publishes of the same rendered pages writes zero page files and counts every
page unchanged.  With new-channel pages the stitched boundary page is
rewritten on every run. -/
theorem c2_amended_idempotent_publish (htmls : List String) (ns : Nat) (d : Disk) :
    (publishOnce htmls false ns (publishOnce htmls false ns d).disk).written = 0 ∧
    (publishOnce htmls false ns (publishOnce htmls false ns d).disk).unchanged
      = htmls.length := by
  by_cases hnil : htmls.isEmpty
  · have hn : htmls = [] := by simpa using hnil
    subst hn
    exact ⟨rfl, rfl⟩
  · have hnil' : htmls.isEmpty = false := by simpa using hnil
    have hloop2 : publishPagesLoop (publishOnce htmls false ns d).disk 1 htmls
        = ((publishOnce htmls false ns d).disk, 0, htmls.length) := by
      apply publishLoopUnchanged
      intro j hj
      exact publishOnceDiskPages htmls ns d hnil' j hj
    rw [publishOnceEq htmls ns (publishOnce htmls false ns d).disk hnil']
    simp only [hloop2]
    exact ⟨trivial, trivial⟩

/-! ### Claim C1: cache dedup behaviour of the media resolver -/

theorem lookupInsertSelf (m : List (String × String)) (k v : String) :
    lookupA (insertA m k v) k = some v := by
  simp [lookupA, insertA, List.find?_cons]

theorem resolveStepMiss {dl : String → String → Option String} {base : Nat → String}
    {idx : Nat} {u : String} (acc : ResolveAcc)
    (hlook : lookupA acc.cache (canonical_media_key u) = none)
    {nm : String} (hdl : dl u (base idx) = some nm) :
    resolveStep dl base acc idx u = downloadHit acc (canonical_media_key u) nm := by
  simp only [resolveStep]
  rw [hlook, hdl]

theorem resolveStepHit {dl : String → String → Option String} {base : Nat → String}
    {idx : Nat} {u : String} (acc : ResolveAcc) {r : String}
    (hlook : lookupA acc.cache (canonical_media_key u) = some r)
    (hcond : r ≠ "" ∧ r ∈ acc.disk ∧ r ∉ acc.seen) :
    resolveStep dl base acc idx u = reuseHit acc r := by
  simp only [resolveStep]
  rw [hlook]
  show (if r ≠ "" ∧ r ∈ acc.disk ∧ r ∉ acc.seen then reuseHit acc r
    else
      match dl u (base idx) with
      | some saved => downloadHit acc (canonical_media_key u) saved
      | none =>
        if r ≠ "" ∧ r ∈ acc.disk ∧ r ∉ acc.seen then reuseHit acc r else acc) = _
  rw [if_pos hcond]

theorem resolveStepSeenDownloads {dl : String → String → Option String}
    {base : Nat → String} {idx : Nat} {u : String} (acc : ResolveAcc)
    (hinv : ∀ r, lookupA acc.cache (canonical_media_key u) = some r → r ∈ acc.seen)
    (hdl : (dl u (base idx)).isSome) :
    ∃ saved, dl u (base idx) = some saved ∧
      resolveStep dl base acc idx u = downloadHit acc (canonical_media_key u) saved := by
  obtain ⟨saved, hsaved⟩ : ∃ s, dl u (base idx) = some s := by
    cases hd : dl u (base idx) with
    | none => rw [hd] at hdl; simp at hdl
    | some s => exact ⟨s, rfl⟩
  refine ⟨saved, hsaved, ?_⟩
  simp only [resolveStep]
  cases hlook : lookupA acc.cache (canonical_media_key u) with
  | none =>
    rw [hsaved]
  | some r =>
    have hr : r ∈ acc.seen := hinv r hlook
    show (if r ≠ "" ∧ r ∈ acc.disk ∧ r ∉ acc.seen then reuseHit acc r
      else
        match dl u (base idx) with
        | some saved => downloadHit acc (canonical_media_key u) saved
        | none =>
          if r ≠ "" ∧ r ∈ acc.disk ∧ r ∉ acc.seen then reuseHit acc r else acc)
      = downloadHit acc (canonical_media_key u) saved
    rw [if_neg (by intro hcond; exact hcond.2.2 hr), hsaved]

theorem downloadHitInv {acc : ResolveAcc} {key saved : String} :
    ∀ r, lookupA (downloadHit acc key saved).cache key = some r →
      r ∈ (downloadHit acc key saved).seen := by
  intro r hr
  have h1 : lookupA (downloadHit acc key saved).cache key = some saved := by
    show lookupA (insertA acc.cache key saved) key = some saved
    exact lookupInsertSelf acc.cache key saved
  rw [h1] at hr
  have : saved = r := by simpa using hr
  subst this
  show saved ∈ saved :: acc.seen
  exact List.mem_cons_self saved acc.seen

theorem resolveLoopDup (dl : String → String → Option String) (base : Nat → String)
    (u : String) (hdl : ∀ b, (dl u b).isSome) :
    ∀ (n idx : Nat) (acc : ResolveAcc),
      (∀ r, lookupA acc.cache (canonical_media_key u) = some r → r ∈ acc.seen) →
      (resolveLoop dl base (List.replicate n u) idx acc).downloaded
          = acc.downloaded + n ∧
      (resolveLoop dl base (List.replicate n u) idx acc).reused = acc.reused := by
  intro n
  induction n with
  | zero =>
    intro idx acc hinv
    simp [List.replicate, resolveLoop]
  | succ n ih =>
    intro idx acc hinv
    rw [List.replicate_succ]
    obtain ⟨saved, hsaved, hstep⟩ := resolveStepSeenDownloads acc hinv (hdl (base idx))
    have hred : resolveLoop dl base (u :: List.replicate n u) idx acc
        = resolveLoop dl base (List.replicate n u) (idx + 1)
            (resolveStep dl base acc idx u) := rfl
    rw [hred, hstep]
    have hinv' := @downloadHitInv acc (canonical_media_key u) saved
    have hih := ih (idx + 1) (downloadHit acc (canonical_media_key u) saved) hinv'
    constructor
    · rw [hih.1]
      show acc.downloaded + 1 + n = acc.downloaded + (n + 1)
      omega
    · rw [hih.2]
      rfl

theorem resolveCross (dl dl₂ : String → String → Option String)
    (base base₂ : Nat → String) (u u' nm : String) (fs : MediaFS)
    (hlook : lookupA fs.cache (canonical_media_key u) = none)
    (hdl : dl u (base 1) = some nm) (hnm : nm ≠ "")
    (hkey : canonical_media_key u' = canonical_media_key u) :
    (resolveLoop dl base [u] 1 ⟨fs.cache, fs.disk, [], [], 0, 0⟩).downloaded = 1 ∧
    (resolveLoop dl base [u] 1 ⟨fs.cache, fs.disk, [], [], 0, 0⟩).reused = 0 ∧
    (resolveLoop dl base [u] 1 ⟨fs.cache, fs.disk, [], [], 0, 0⟩).locals = [nm] ∧
    (resolveLoop dl₂ base₂ [u'] 1
        ⟨(resolveLoop dl base [u] 1 ⟨fs.cache, fs.disk, [], [], 0, 0⟩).cache,
         (resolveLoop dl base [u] 1 ⟨fs.cache, fs.disk, [], [], 0, 0⟩).disk,
         [], [], 0, 0⟩).downloaded = 0 ∧
    (resolveLoop dl₂ base₂ [u'] 1
        ⟨(resolveLoop dl base [u] 1 ⟨fs.cache, fs.disk, [], [], 0, 0⟩).cache,
         (resolveLoop dl base [u] 1 ⟨fs.cache, fs.disk, [], [], 0, 0⟩).disk,
         [], [], 0, 0⟩).reused = 1 ∧
    (resolveLoop dl₂ base₂ [u'] 1
        ⟨(resolveLoop dl base [u] 1 ⟨fs.cache, fs.disk, [], [], 0, 0⟩).cache,
         (resolveLoop dl base [u] 1 ⟨fs.cache, fs.disk, [], [], 0, 0⟩).disk,
         [], [], 0, 0⟩).locals = [nm] := by
  have h1 : resolveLoop dl base [u] 1 ⟨fs.cache, fs.disk, [], [], 0, 0⟩
      = downloadHit ⟨fs.cache, fs.disk, [], [], 0, 0⟩ (canonical_media_key u) nm := by
    show resolveStep dl base ⟨fs.cache, fs.disk, [], [], 0, 0⟩ 1 u = _
    exact resolveStepMiss _ hlook hdl
  have hd : downloadHit ⟨fs.cache, fs.disk, [], [], 0, 0⟩ (canonical_media_key u) nm
      = ⟨insertA fs.cache (canonical_media_key u) nm, nm :: fs.disk, [nm], [nm], 0, 1⟩ :=
    rfl
  rw [h1, hd]
  have h2 : resolveLoop dl₂ base₂ [u'] 1
      ⟨insertA fs.cache (canonical_media_key u) nm, nm :: fs.disk, [], [], 0, 0⟩
      = reuseHit ⟨insertA fs.cache (canonical_media_key u) nm, nm :: fs.disk,
          [], [], 0, 0⟩ nm := by
    show resolveStep dl₂ base₂ _ 1 u' = _
    apply resolveStepHit
    · show lookupA (insertA fs.cache (canonical_media_key u) nm)
        (canonical_media_key u') = some nm
      rw [hkey]
      exact lookupInsertSelf _ _ _
    · exact ⟨hnm, by simp, by simp⟩
  rw [h2]
  exact ⟨rfl, rfl, rfl, rfl, rfl, rfl⟩

theorem rewriteImagesUnfold (dl : String → String → Option String) (p : Nat)
    (urls : List String) (fs : MediaFS) :
    rewrite_images_to_local_cached dl p urls fs
      = ⟨(resolveLoop dl (imageBase p) urls 1 ⟨fs.cache, fs.disk, [], [], 0, 0⟩).locals,
         (resolveLoop dl (imageBase p) urls 1 ⟨fs.cache, fs.disk, [], [], 0, 0⟩).reused,
         (resolveLoop dl (imageBase p) urls 1 ⟨fs.cache, fs.disk, [], [], 0, 0⟩).downloaded,
         ⟨(resolveLoop dl (imageBase p) urls 1 ⟨fs.cache, fs.disk, [], [], 0, 0⟩).cache,
          (resolveLoop dl (imageBase p) urls 1 ⟨fs.cache, fs.disk, [], [], 0, 0⟩).disk⟩⟩ :=
  rfl

theorem rewriteVideosUnfold (dl : String → String → Option String) (p : Nat)
    (urls : List String) (fs : MediaFS) :
    rewrite_videos_to_local_cached dl p urls fs
      = ⟨(resolveLoop dl (videoBase p) urls 1 ⟨fs.cache, fs.disk, [], [], 0, 0⟩).locals,
         (resolveLoop dl (videoBase p) urls 1 ⟨fs.cache, fs.disk, [], [], 0, 0⟩).reused,
         (resolveLoop dl (videoBase p) urls 1 ⟨fs.cache, fs.disk, [], [], 0, 0⟩).downloaded,
         ⟨(resolveLoop dl (videoBase p) urls 1 ⟨fs.cache, fs.disk, [], [], 0, 0⟩).cache,
          (resolveLoop dl (videoBase p) urls 1 ⟨fs.cache, fs.disk, [], [], 0, 0⟩).disk⟩⟩ :=
  rfl

/-- Counterexample to claim C1 as stated: the same Discord CDN URL twice in
one page's list, fresh cache, all downloads succeeding.  The claim predicts 1
download and 1 cache hit; the code downloads twice and reuses nothing,
because a file already consumed by an earlier URL of the same call
(`seen_rels`) is never reused. -/
theorem c1_counterexample :
    (rewrite_images_to_local_cached (fun _ b => some (b ++ ".png")) 1
        ["https://cdn.discordapp.com/a?x=1", "https://cdn.discordapp.com/a?x=1"]
        ⟨[], []⟩).downloaded = 2 ∧
    (rewrite_images_to_local_cached (fun _ b => some (b ++ ".png")) 1
        ["https://cdn.discordapp.com/a?x=1", "https://cdn.discordapp.com/a?x=1"]
        ⟨[], []⟩).reused = 0 ∧
    ¬((rewrite_images_to_local_cached (fun _ b => some (b ++ ".png")) 1
        ["https://cdn.discordapp.com/a?x=1", "https://cdn.discordapp.com/a?x=1"]
        ⟨[], []⟩).downloaded = 1 ∧
      (rewrite_images_to_local_cached (fun _ b => some (b ++ ".png")) 1
        ["https://cdn.discordapp.com/a?x=1", "https://cdn.discordapp.com/a?x=1"]
        ⟨[], []⟩).reused = 1) := by
  refine ⟨by decide, by decide, by decide⟩

/-- Claim C1 (corrected): across successive runs the cache deduplicates — a
canonical key downloaded once is afterwards reused from the persisted mapping
(1 download, then hits) — but within one call duplicate keys are deliberately
not collapsed: with a fresh key and succeeding downloads, a list of `n`
occurrences of the same URL yields `n` downloads and `0` hits, for images and
videos alike, because a file used by an earlier URL of the same call is never
reused. -/
theorem c1_amended_cache_dedup :
    (∀ (dl : String → String → Option String) (p n : Nat) (u : String) (fs : MediaFS),
      (∀ b, (dl u b).isSome) →
      lookupA fs.cache (canonical_media_key u) = none →
      (rewrite_images_to_local_cached dl p (List.replicate n u) fs).downloaded = n ∧
      (rewrite_images_to_local_cached dl p (List.replicate n u) fs).reused = 0) ∧
    (∀ (dl : String → String → Option String) (p n : Nat) (u : String) (fs : MediaFS),
      (∀ b, (dl u b).isSome) →
      lookupA fs.cache (canonical_media_key u) = none →
      (rewrite_videos_to_local_cached dl p (List.replicate n u) fs).downloaded = n ∧
      (rewrite_videos_to_local_cached dl p (List.replicate n u) fs).reused = 0) ∧
    (∀ (dl dl₂ : String → String → Option String) (p p₂ : Nat) (u u' nm : String)
        (fs : MediaFS),
      lookupA fs.cache (canonical_media_key u) = none →
      dl u (imageBase p 1) = some nm → nm ≠ "" →
      canonical_media_key u' = canonical_media_key u →
      (rewrite_images_to_local_cached dl p [u] fs).downloaded = 1 ∧
      (rewrite_images_to_local_cached dl p [u] fs).reused = 0 ∧
      (rewrite_images_to_local_cached dl₂ p₂ [u']
        (rewrite_images_to_local_cached dl p [u] fs).fs).downloaded = 0 ∧
      (rewrite_images_to_local_cached dl₂ p₂ [u']
        (rewrite_images_to_local_cached dl p [u] fs).fs).reused = 1 ∧
      (rewrite_images_to_local_cached dl₂ p₂ [u']
        (rewrite_images_to_local_cached dl p [u] fs).fs).locals = [nm]) ∧
    (∀ (dl dl₂ : String → String → Option String) (p p₂ : Nat) (u u' nm : String)
        (fs : MediaFS),
      lookupA fs.cache (canonical_media_key u) = none →
      dl u (videoBase p 1) = some nm → nm ≠ "" →
      canonical_media_key u' = canonical_media_key u →
      (rewrite_videos_to_local_cached dl p [u] fs).downloaded = 1 ∧
      (rewrite_videos_to_local_cached dl p [u] fs).reused = 0 ∧
      (rewrite_videos_to_local_cached dl₂ p₂ [u']
        (rewrite_videos_to_local_cached dl p [u] fs).fs).downloaded = 0 ∧
      (rewrite_videos_to_local_cached dl₂ p₂ [u']
        (rewrite_videos_to_local_cached dl p [u] fs).fs).reused = 1 ∧
      (rewrite_videos_to_local_cached dl₂ p₂ [u']
        (rewrite_videos_to_local_cached dl p [u] fs).fs).locals = [nm]) := by
  have hinv0 : ∀ (fs : MediaFS) (u : String),
      lookupA fs.cache (canonical_media_key u) = none →
      ∀ r, lookupA (⟨fs.cache, fs.disk, [], [], 0, 0⟩ : ResolveAcc).cache
        (canonical_media_key u) = some r →
        r ∈ (⟨fs.cache, fs.disk, [], [], 0, 0⟩ : ResolveAcc).seen := by
    intro fs u hlook r hr
    rw [show lookupA (⟨fs.cache, fs.disk, [], [], 0, 0⟩ : ResolveAcc).cache
      (canonical_media_key u) = lookupA fs.cache (canonical_media_key u) from rfl,
      hlook] at hr
    exact absurd hr (by simp)
  refine ⟨?_, ?_, ?_, ?_⟩
  · intro dl p n u fs hdl hlook
    have := resolveLoopDup dl (imageBase p) u hdl n 1
      ⟨fs.cache, fs.disk, [], [], 0, 0⟩ (hinv0 fs u hlook)
    constructor
    · show (resolveLoop dl (imageBase p) (List.replicate n u) 1
        ⟨fs.cache, fs.disk, [], [], 0, 0⟩).downloaded = n
      rw [this.1]
      show 0 + n = n
      omega
    · exact this.2
  · intro dl p n u fs hdl hlook
    have := resolveLoopDup dl (videoBase p) u hdl n 1
      ⟨fs.cache, fs.disk, [], [], 0, 0⟩ (hinv0 fs u hlook)
    constructor
    · show (resolveLoop dl (videoBase p) (List.replicate n u) 1
        ⟨fs.cache, fs.disk, [], [], 0, 0⟩).downloaded = n
      rw [this.1]
      show 0 + n = n
      omega
    · exact this.2
  · intro dl dl₂ p p₂ u u' nm fs hlook hdl hnm hkey
    have h := resolveCross dl dl₂ (imageBase p) (imageBase p₂) u u' nm fs hlook hdl hnm hkey
    simp only [rewriteImagesUnfold]
    exact ⟨h.1, h.2.1, h.2.2.2.1, h.2.2.2.2.1, h.2.2.2.2.2⟩
  · intro dl dl₂ p p₂ u u' nm fs hlook hdl hnm hkey
    have h := resolveCross dl dl₂ (videoBase p) (videoBase p₂) u u' nm fs hlook hdl hnm hkey
    simp only [rewriteVideosUnfold]
    exact ⟨h.1, h.2.1, h.2.2.2.1, h.2.2.2.2.1, h.2.2.2.2.2⟩

/-- Witness for the amended C1 at a concrete input: two re-signed Discord CDN
URLs for the same asset across two runs give one download then one hit. -/
theorem c1_amended_cache_dedup_witness :
    lookupA (⟨[], []⟩ : MediaFS).cache
      (canonical_media_key "https://cdn.discordapp.com/a?x=1") = none ∧
    (fun _ b => some (b ++ ".png") : String → String → Option String)
        "https://cdn.discordapp.com/a?x=1" (imageBase 1 1) = some "page1_1.png" ∧
    ("page1_1.png" : String) ≠ "" ∧
    canonical_media_key "https://cdn.discordapp.com/a?x=2"
      = canonical_media_key "https://cdn.discordapp.com/a?x=1" ∧
    (rewrite_images_to_local_cached (fun _ b => some (b ++ ".png")) 1
        ["https://cdn.discordapp.com/a?x=1"] ⟨[], []⟩).downloaded = 1 ∧
    (rewrite_images_to_local_cached (fun _ _ => none) 2
        ["https://cdn.discordapp.com/a?x=2"]
        (rewrite_images_to_local_cached (fun _ b => some (b ++ ".png")) 1
          ["https://cdn.discordapp.com/a?x=1"] ⟨[], []⟩).fs).reused = 1 := by
  refine ⟨by decide, by decide, by decide, by decide, ?_, ?_⟩
  · exact (c1_amended_cache_dedup.2.2.1 (fun _ b => some (b ++ ".png"))
      (fun _ _ => none) 1 2 "https://cdn.discordapp.com/a?x=1"
      "https://cdn.discordapp.com/a?x=2" "page1_1.png" ⟨[], []⟩
      (by decide) (by decide) (by decide) (by decide)).1
  · exact (c1_amended_cache_dedup.2.2.1 (fun _ b => some (b ++ ".png"))
      (fun _ _ => none) 1 2 "https://cdn.discordapp.com/a?x=1"
      "https://cdn.discordapp.com/a?x=2" "page1_1.png" ⟨[], []⟩
      (by decide) (by decide) (by decide) (by decide)).2.2.2.1

/-! ### Claim C9: a valid-JSON non-dict cache file crashes the resolver -/

/-- Claim C9 (code_bug): a cache file that is absent, unreadable, or invalid
JSON behaves as an empty cache, but content that parses as JSON without being
an object (e.g. a JSON array) is returned as-is by `_load_cache`, and the
first `cache.get(key)` of the resolver then raises `AttributeError` —
contradicting the spec's "never a hard failure". -/
theorem c9_cache_nondict_crashes (dl : String → String → Option String)
    (p : Nat) (u : String) (us : List String) (disk : List String) :
    rewrite_images_cached_from_file dl p (u :: us) CacheFileContent.jsonNonDict disk
      = Except.error () ∧
    rewrite_images_cached_from_file dl p (u :: us) CacheFileContent.absent disk
      = Except.ok (rewrite_images_to_local_cached dl p (u :: us) ⟨[], disk⟩) ∧
    rewrite_images_cached_from_file dl p (u :: us) CacheFileContent.unreadable disk
      = Except.ok (rewrite_images_to_local_cached dl p (u :: us) ⟨[], disk⟩) ∧
    rewrite_images_cached_from_file dl p (u :: us) CacheFileContent.invalidJson disk
      = Except.ok (rewrite_images_to_local_cached dl p (u :: us) ⟨[], disk⟩) :=
  ⟨rfl, rfl, rfl, rfl⟩
